import Mathlib

/-
Verification of the dynamodb-onetable-go core against its specification.

The Go source is shallowly embedded: Go `any` property values become the
inductive `Value` (JSON-like universe: the `time.Time` branches of the source
have no representative here, and numeric values are modelled over `Int`);
Go `map[string]any` property bags become association lists (`Item`) with
deterministic (insertion) order standing in for Go's unordered map iteration;
Go panics and returned errors both become the `Except` error channel; the
external regex, identifier and time libraries are parameters of the functions
that call them.  Expression strings are represented as token lists (`Tok`)
together with a `render` function that reproduces the exact strings the Go
code builds with `fmt.Sprintf`.
-/

namespace OneTable

/-- A Go `any` value as used by the onetable property bags. -/
inductive Value where
  | vnull
  | vstr (s : String)
  | vnum (n : Int)
  | vbool (b : Bool)
  | vmap (entries : List (String × Value))
  | vlist (elems : List Value)

/-- A Go property bag (`Item = map[string]any` in model.go),
embedded as an association list with unique keys. -/
abbrev Item := List (String × Value)

/-- Go `value == nil` test on an `any`. -/
def Value.isNil : Value → Bool
  | .vnull => true
  | _ => false

/-- Go map read `m[k]` distinguished from presence: `v, ok := m[k]`. -/
def itemGet? (m : Item) (k : String) : Option Value :=
  match m with
  | [] => none
  | (k2, v) :: rest => if k2 = k then some v else itemGet? rest k

/-- Go map read `m[k]` (missing keys read as nil). -/
def goGet (m : Item) (k : String) : Value :=
  (itemGet? m k).getD .vnull

/-- Go `_, ok := m[k]` presence test. -/
def itemHas (m : Item) (k : String) : Bool :=
  (itemGet? m k).isSome

/-- Go map write `m[k] = v`. -/
def itemSet (m : Item) (k : String) (v : Value) : Item :=
  match m with
  | [] => [(k, v)]
  | (k2, v2) :: rest => if k2 = k then (k, v) :: rest else (k2, v2) :: itemSet rest k v

/-- Go `delete(m, k)`. -/
def itemErase (m : Item) (k : String) : Item :=
  match m with
  | [] => []
  | (k2, v2) :: rest => if k2 = k then rest else (k2, v2) :: itemErase rest k

mutual

/-- Go `fmt.Sprintf("%v", v)` on the embedded value universe. -/
def showValue : Value → String
  | .vnull => "<nil>"
  | .vstr s => s
  | .vnum n => toString n
  | .vbool b => if b then "true" else "false"
  | .vmap entries => "map[" ++ showEntries entries ++ "]"
  | .vlist elems => "[" ++ showElems elems ++ "]"

def showEntries : List (String × Value) → String
  | [] => ""
  | [(k, v)] => k ++ ":" ++ showValue v
  | (k, v) :: rest => k ++ ":" ++ showValue v ++ " " ++ showEntries rest

def showElems : List Value → String
  | [] => ""
  | [v] => showValue v
  | v :: rest => showValue v ++ " " ++ showElems rest

end

/-- Go helper `containsStr` (model.go). -/
def containsStr (s : List String) (v : String) : Bool :=
  match s with
  | [] => false
  | x :: rest => if x = v then true else containsStr rest v

/-- Go helper `getPropValue` (model.go): walk a dotted path through nested maps. -/
def getPropValueParts (v : Value) (parts : List String) : Value :=
  match parts with
  | [] => v
  | p :: rest =>
    match v with
    | .vmap entries =>
      getPropValueParts (goGet entries p) rest
    | _ => .vnull

/-- Go helper `getPropValue(m, path)` (model.go): splits `path` on `.`. -/
def getPropValue (m : Item) (path : String) : Value :=
  getPropValueParts (.vmap m) (path.splitOn ".")

/-- Polymorphic association-list lookup (Go map read returning the zero pointer
when absent). -/
def lookupStr {α : Type} (l : List (String × α)) (k : String) : Option α :=
  match l with
  | [] => none
  | (k2, v) :: rest => if k2 = k then some v else lookupStr rest k

/-- Field types (`FieldType` constants in the schema types file). -/
inductive FType where
  | tstring | tnumber | tboolean | tdate | tobject | tarray | tset | tbinary | tbuffer | tarraybuffer
deriving DecidableEq, Repr

/-- The parts of Go `FieldDef` that the embedded operations read. -/
structure FDefL where
  required : Bool := false
  dflt : Option Value := none
  validate : String := ""
  enum : Option (List String) := none
  unique : Bool := false
  filterF : Option Bool := none
  generate : String := ""
  crypt : Bool := false
  ttl : Bool := false
  encode : Option (String × String × Nat) := none

/-- The scalar part of Go `preparedField` (model_prep.go). -/
structure PFieldCore where
  name : String
  attPath : List String
  fdef : FDefL
  ftype : FType := .tstring
  isIndexed : Bool := false
  hidden : Bool := false
  required : Bool := false
  nulls : Bool := false
  isoDates : Bool := false
  isArray : Bool := false
  valueTemplate : String := ""
  partOv : Option Bool := none

/-- Go `preparedField` including its optional nested `fieldBlock`
(`hasBlock = false` models `field.Block == nil`; the two lists are then
ignored, mirroring the nil pointer). `blockDeps` models the dependency-ordered
`Deps` list of the nested block. -/
inductive PField where
  | mk (core : PFieldCore) (blockFields : List (String × PField))
       (blockDeps : List PField) (hasBlock : Bool)

def PField.core : PField → PFieldCore
  | .mk c _ _ _ => c

def PField.blockFields : PField → List (String × PField)
  | .mk _ f _ _ => f

def PField.blockDeps : PField → List PField
  | .mk _ _ d _ => d

def PField.hasBlock : PField → Bool
  | .mk _ _ _ b => b

/-- Go `field.Attribute[0]` (always non-empty after prepModel). -/
def PField.att0 (f : PField) : String :=
  f.core.attPath.headD ""

/-- Go `filterDisabled` (expression.go). -/
def filterDisabled (f : PField) : Bool :=
  match f.core.fdef.filterF with
  | some b => !b
  | none => false

/-- Index projection (`IndexDef.Project`, Go `any`: a string or a list). -/
inductive ProjectDef where
  | pstr (s : String)
  | plist (l : List String)

/-- Go `IndexDef` (schema types). -/
structure IndexDefL where
  hash : String := ""
  sort : String := ""
  project : Option ProjectDef := none
  follow : Bool := false

/-- Table timestamps policy (Go `any`: bool or "create"/"update"). -/
inductive TsPolicy where
  | tsOff | tsOn | tsCreate | tsUpdate
deriving DecidableEq, Repr

/-- Go `ts == true || ts == "create"`. -/
def TsPolicy.creates : TsPolicy → Bool
  | .tsOn => true
  | .tsCreate => true
  | _ => false

/-- Go `ts == true || ts == "update"`. -/
def TsPolicy.updates : TsPolicy → Bool
  | .tsOn => true
  | .tsUpdate => true
  | _ => false

/-- Error categories (`ErrorCode` in errors.go; `panicE` models a Go panic
that carries a plain string rather than an error value). -/
inductive ErrKind where
  | argError | validation | missing | nonUnique | uniqueE | notFound | runtimeE | panicE
deriving DecidableEq, Repr

/-- A OneTable error or escaped panic. `viaPanic` records that the Go source
raised this condition with `panic(...)` rather than returning it. -/
structure ErrL where
  kind : ErrKind
  msg : String
  validationCtx : List (String × String) := []
  viaPanic : Bool := false

/-- Write return-values option (Go `Params.Return any`: bool or string). -/
inductive RetVal where
  | rbool (b : Bool)
  | rstr (s : String)

/-- The subset of Go `Params` (model.go) read by the embedded operations.
`batch` stands for `params.Batch != nil`, `statsOn` for `params.Stats != nil`,
`txnOn` for `params.Transaction != nil` and `txnHasTs` for
`params.Transaction["timestamp"] != nil`. -/
structure ParamsL where
  execute : Option Bool := none
  parse : Bool := false
  high : Bool := false
  hiddenShow : Option Bool := none
  partOv : Option Bool := none
  existsQ : Option Bool := none
  limit : Nat := 0
  next : Option Item := none
  prev : Option Item := none
  reverse : Bool := false
  maxPages : Nat := 0
  index : String := ""
  fieldsP : Option (List String) := none
  consistent : Bool := false
  ret : Option RetVal := none
  whereS : String := ""
  setP : List (String × String) := []
  addP : List (String × Value) := []
  removeP : List String := []
  deleteP : List (String × Value) := []
  pushP : List (String × Value) := []
  subs : Option (List (String × Value)) := none
  segments : Nat := 0
  segment : Nat := 0
  countP : Bool := false
  selectP : String := ""
  statsOn : Bool := false
  capacity : String := ""
  batch : Bool := false
  txnOn : Bool := false
  txnHasTs : Bool := false
  followP : Option Bool := none
  many : Bool := false
  checked : Bool := false
  prepared : Bool := false
  fback : Bool := false

/-- The parts of Go `Model` (plus the table fields it caches) read by the
embedded operations. `generate` is the external identifier service,
`tableContext` the table-level context map, `hasClient` models
`table.client != nil` and `metricsOn` models `table.metrics != nil`. -/
structure ModelL where
  name : String
  typeField : String
  createdField : String := "created"
  updatedField : String := "updated"
  tableName : String
  generic : Bool := false
  nested : Bool := false
  partFlag : Bool := false
  isoDates : Bool := false
  nullsT : Bool := false
  timestamps : TsPolicy := .tsOff
  warn : Bool := false
  fields : List (String × PField)
  deps : List PField
  indexes : List (String × IndexDefL)
  mappings : List (String × List String) := []
  hasUniqueFields : Bool := false
  tableContext : Item := []
  generate : String → String := fun _ => ""
  encrypt : String → String := fun s => s
  hasClient : Bool := true
  metricsOn : Bool := false

/-- The name of the index `Model.selectIndex` (model.go) resolves to.  The
source compares `*IndexDef` pointers; the embedding tracks the chosen map key,
which determines the same object. -/
def selectIndexName (m : ModelL) (params : ParamsL) : String :=
  if params.index ≠ "" ∧ params.index ≠ "primary" ∧ (lookupStr m.indexes params.index).isSome
  then params.index else "primary"

/-- Go `Model.selectIndex` (model.go): named index when it exists, else the
primary index (`none` only when the schema lacks a primary index, where the
source would dereference a nil pointer downstream). -/
def selectIndex (m : ModelL) (params : ParamsL) : Option IndexDefL :=
  lookupStr m.indexes (selectIndexName m params)

/-- Go `Model.needsFallback` (model.go): a key-op routed at a non-primary
index must be re-issued as a find. -/
def needsFallback (m : ModelL) (op : String) (params : ParamsL) : Bool :=
  selectIndexName m params != "primary" && op != "find" && op != "scan"

/-- Go `Model.getPartial` (model.go). -/
def getPartFlag (m : ModelL) (f : PField) (params : ParamsL) : Bool :=
  match params.partOv with
  | some b => b
  | none =>
    match f.core.partOv with
    | some b => b
    | none => m.partFlag

/-- Go `Model.getHashValue` (model.go): the prepared record's value for the
active index's hash attribute (nil when absent). -/
def getHashValue (m : ModelL) (rec : Item) (fields : List (String × PField)) (index : IndexDefL) : Value :=
  if m.generic then goGet rec index.hash
  else
    match fields.find? (fun kv => kv.2.att0 == index.hash) with
    | some (_, f) => goGet rec f.core.name
    | none => .vnull

/-- Go `keysOnlyOp` (model.go). -/
def keysOnlyOp (op : String) : Bool :=
  op == "delete" || op == "get"

/-! Expression builder (expression.go).  Expression strings are modelled as
token lists: `lit` chunks are verbatim text, `nref i` renders as the
`fmt.Sprintf("#_%d", i)` attribute-name placeholder and `vref i` as the
`:_%d` value placeholder.  `render` reproduces the exact Go string. -/

/-- One piece of an expression string. -/
inductive Tok where
  | lit (s : String)
  | nref (i : Nat)
  | vref (i : Nat)

/-- An expression string as the Go code assembles it. -/
abbrev TokStr := List Tok

def renderTok : Tok → String
  | .lit s => s
  | .nref i => "#_" ++ toString i
  | .vref i => ":_" ++ toString i

/-- The Go string an expression token list denotes. -/
def render (ts : TokStr) : String :=
  String.join (ts.map renderTok)

/-- Joins token strings with a literal separator (Go `strings.Join`). -/
def joinToks (sep : String) : List TokStr → TokStr
  | [] => []
  | [t] => t
  | t :: rest => t ++ [.lit sep] ++ joinToks sep rest

/-- Go `expression` builder state (expression.go struct fields).  `names` and
`values` are the two placeholder tables keyed `#_n` / `:_n`; `namesMap` and
`valuesMap` are the dedup reverse maps; the remaining lists mirror the
`conditions`, `filters`, `keys`, `project` and `updates` collections;
`keyItem` is the `Key` map, `already` the processed-attribute set, `mapped`
the packed-attribute staging area and `putsI` the `puts` record. -/
structure ExprState where
  names : List (String × String) := []
  namesMap : List (String × Nat) := []
  values : List (String × Value) := []
  valuesMap : List (String × Nat) := []
  nindex : Nat := 0
  vindex : Nat := 0
  conditions : List TokStr := []
  filters : List TokStr := []
  keys : List TokStr := []
  project : List TokStr := []
  updAdd : List TokStr := []
  updDel : List TokStr := []
  updRem : List TokStr := []
  updSet : List TokStr := []
  keyItem : Item := []
  already : List String := []
  mapped : List (String × Item) := []
  putsI : Item := []

/-- Go `expression.addName` (expression.go 491-501). -/
def addName (e : ExprState) (name : String) : Nat × ExprState :=
  match lookupStr e.namesMap name with
  | some idx => (idx, e)
  | none =>
    let idx := e.nindex
    (idx, { e with
      nindex := idx + 1
      names := e.names ++ [("#_" ++ toString idx, name)]
      namesMap := e.namesMap ++ [(name, idx)] })

/-- The `case map[string]any, []any, float64, int, int64` arm of Go
`expression.addValue`: compound values and numbers are never deduplicated. -/
def Value.noDedup : Value → Bool
  | .vmap _ => true
  | .vlist _ => true
  | .vnum _ => true
  | _ => false

/-- Go `expression.addValue` (expression.go 503-527): nil, maps, lists and
numbers always get a fresh index; other values deduplicate by their
`fmt.Sprintf("%v", value)` string form. -/
def addValue (e : ExprState) (v : Value) : Nat × ExprState :=
  if v.isNil || v.noDedup then
    let idx := e.vindex
    (idx, { e with
      vindex := idx + 1
      values := e.values ++ [(":_" ++ toString idx, v)] })
  else
    let k := showValue v
    match lookupStr e.valuesMap k with
    | some idx => (idx, e)
    | none =>
      let idx := e.vindex
      (idx, { e with
        vindex := idx + 1
        values := e.values ++ [(":_" ++ toString idx, v)]
        valuesMap := e.valuesMap ++ [(k, idx)] })

/-- Go `expression.addValueExp`. -/
def addValueExp (e : ExprState) (v : Value) : TokStr × ExprState :=
  let (i, e2) := addValue e v
  ([.vref i], e2)

/-- Go `asSlice` (expression.go). -/
def asSlice (v : Value) : Value :=
  match v with
  | .vlist _ => v
  | _ => .vlist [v]

/-- Go `KeyOperators` (expression.go). -/
def keyOperators : List String :=
  ["<", "<=", "=", ">=", ">", "begins", "begins_with", "between"]

def lbrace : Char := Char.ofNat 123

def rbrace : Char := Char.ofNat 125

/-- Splits a path part at the first `[` (Go `strings.Index(part, "[")` in
`makeTarget`): returns the part before and the subscript from `[` onward. -/
def breakAtBracket (cs : List Char) : List Char × List Char :=
  match cs with
  | [] => ([], [])
  | c :: rest =>
    if c = '[' then ([], c :: rest)
    else
      let (a, b) := breakAtBracket rest
      (c :: a, b)

/-- Go `expression.makeTarget` body for a list of dotted parts; `flds` is the
current field map (nil once navigation leaves the schema). -/
def makeTargetParts (flds : Option (List (String × PField))) (e : ExprState) :
    List String → List TokStr × ExprState
  | [] => ([], e)
  | part :: rest =>
    let (before, sub) := breakAtBracket part.data
    let partName := String.mk before
    let subscript := String.mk sub
    let (att, flds2) :=
      match flds with
      | some fl =>
        match lookupStr fl partName with
        | some f => (f.att0, if f.hasBlock then some f.blockFields else none)
        | none => (partName, (none : Option (List (String × PField))))
      | none => (partName, none)
    let (i, e2) := addName e att
    let (restToks, e3) := makeTargetParts flds2 e2 rest
    (([.nref i, .lit subscript] : TokStr) :: restToks, e3)

/-- Go `expression.makeTarget` (expression.go 450-474): resolve a dotted field
path into `#_N`-placeholder chains joined by `.`. -/
def makeTarget (flds : List (String × PField)) (e : ExprState) (name : String) :
    TokStr × ExprState :=
  let (parts, e2) := makeTargetParts (some flds) e (name.splitOn ".")
  (joinToks "." parts, e2)

/-- Inner text of a `$\x7b...\x7d` template token: everything up to the first
`\x7d` (returned with the count of characters consumed, closing brace
included); fails when a newline or the end of input intervenes, because the
Go pattern `(.*?)` does not match newlines. -/
def takeInnerTmpl : List Char → Option (List Char × Nat)
  | [] => none
  | c :: rest =>
    if c = rbrace then some ([], 1)
    else if c = '\n' then none
    else
      match takeInnerTmpl rest with
      | some (inner, n) => some (c :: inner, n + 1)
      | none => none

/-- The `$\x7b...\x7d` pass of Go `expression.expand` (the
`attrRe.ReplaceAllStringFunc` call): each matched template token is resolved
through `makeTarget`; unmatched text passes through unchanged. -/
def scanDollar (flds : List (String × PField)) (e : ExprState) :
    List Char → TokStr × ExprState
  | [] => ([], e)
  | c :: rest =>
    if c = '$' then
      match rest with
      | c2 :: rest2 =>
        if c2 = lbrace then
          match takeInnerTmpl rest2 with
          | some (inner, n) =>
            let (toks, e2) := makeTarget flds e (String.mk inner)
            let (restToks, e3) := scanDollar flds e2 (rest2.drop n)
            (toks ++ restToks, e3)
          | none =>
            let (restToks, e2) := scanDollar flds e (c2 :: rest2)
            ([.lit "$"] ++ restToks, e2)
        else
          let (restToks, e2) := scanDollar flds e (c2 :: rest2)
          ([.lit "$"] ++ restToks, e2)
      | [] => ([.lit "$"], e)
    else
      let (restToks, e2) := scanDollar flds e rest
      ([.lit (String.mk [c])] ++ restToks, e2)
  termination_by cs => cs.length
  decreasing_by
    all_goals simp_all [List.length_drop]
    omega

/-- Inner text of a `@\x7b...\x7d` or `\x7b...\x7d` token: everything up to
the first `\x7d` (with the count of characters consumed); newlines are
allowed because `[^\x7d]` matches them. -/
def takeInnerAny : List Char → Option (List Char × Nat)
  | [] => none
  | c :: rest =>
    if c = rbrace then some ([], 1)
    else
      match takeInnerAny rest with
      | some (inner, n) => some (c :: inner, n + 1)
      | none => none

/-- Sequentially registers the elements of a spread substitution list,
producing one `:_N` reference per element (the `@\x7b...name\x7d` arm of Go
`expression.expand`). -/
def spreadRefs (e : ExprState) : List Value → List TokStr × ExprState
  | [] => ([], e)
  | v :: rest =>
    let (i, e2) := addValue e v
    let (toks, e3) := spreadRefs e2 rest
    (([Tok.vref i] : TokStr) :: toks, e3)

/-- The `@\x7b...\x7d` substitution pass of Go `expression.expand`: resolves
named substitutions from the request table, spreading `...name` lists into
comma-separated placeholder lists; a missing substitution panics. -/
def scanAt (subs : Option (List (String × Value))) (e : ExprState) :
    List Char → Except ErrL (TokStr × ExprState)
  | [] => .ok ([], e)
  | c :: rest =>
    if c = '@' then
      match rest with
      | c2 :: rest2 =>
        if c2 = lbrace then
          match takeInnerAny rest2 with
          | some (inner, n) =>
            if inner.isEmpty then
              -- `[^\x7d]+` needs at least one inner character: no match here
              match scanAt subs e (c2 :: rest2) with
              | .error err => .error err
              | .ok (restToks, e2) => .ok ([.lit "@"] ++ restToks, e2)
            else
              let innerS := String.mk inner
              let spread := decide (inner.take 3 = ['.', '.', '.'])
              let name := if spread then String.mk (inner.drop 3) else innerS
              let sval :=
                match subs with
                | none => Value.vnull
                | some table => goGet table name
              if sval.isNil then
                .error { kind := .panicE, viaPanic := true,
                         msg := "missing substitution for \"" ++ name ++ "\"" }
              else
                let (toks, e2) :=
                  match spread, sval with
                  | true, .vlist arr =>
                    let (refs, ea) := spreadRefs e arr
                    (joinToks ", " refs, ea)
                  | _, _ =>
                    let (i, ea) := addValue e sval
                    (([Tok.vref i] : TokStr), ea)
                match scanAt subs e2 (rest2.drop n) with
                | .error err => .error err
                | .ok (restToks, e3) => .ok (toks ++ restToks, e3)
          | none =>
            match scanAt subs e (c2 :: rest2) with
            | .error err => .error err
            | .ok (restToks, e2) => .ok ([.lit "@"] ++ restToks, e2)
        else
          match scanAt subs e (c2 :: rest2) with
          | .error err => .error err
          | .ok (restToks, e2) => .ok ([.lit "@"] ++ restToks, e2)
      | [] => .ok ([.lit "@"], e)
    else
      match scanAt subs e rest with
      | .error err => .error err
      | .ok (restToks, e2) => .ok ([.lit (String.mk [c])] ++ restToks, e2)
  termination_by cs => cs.length
  decreasing_by
    all_goals simp_all [List.length_drop]
    omega

/-- Digits-only numeral parse. -/
def digitsToNat? (cs : List Char) : Option Nat :=
  if cs.isEmpty then none
  else if cs.all Char.isDigit then
    some (cs.foldl (fun acc c => acc * 10 + (c.toNat - 48)) 0)
  else none

/-- Restriction of Go `strconv.ParseFloat(inner, 64)` to the embedded integer
number universe: an optional sign followed by digits. -/
def parseGoNum (cs : List Char) : Option Int :=
  match cs with
  | '-' :: rest => (digitsToNat? rest).map (fun n => -(n : Int))
  | '+' :: rest => (digitsToNat? rest).map (fun n => (n : Int))
  | _ => (digitsToNat? cs).map (fun n => (n : Int))

/-- The literal evaluation of the `\x7b...\x7d` pass of Go
`expression.expand`: number, `true`/`false`, quoted string, else the bare
identifier text. -/
def braceLiteral (inner : List Char) : Value :=
  match parseGoNum inner with
  | some n => .vnum n
  | none =>
    let s := String.mk inner
    if s = "true" then .vbool true
    else if s = "false" then .vbool false
    else if inner.length ≥ 2 ∧ inner.headD ' ' = '"' ∧ inner.getLast? = some '"' then
      .vstr (String.mk (inner.drop 1).dropLast)
    else .vstr s

/-- The `\x7b...\x7d` literal pass of Go `expression.expand`. -/
def scanBrace (e : ExprState) : List Char → TokStr × ExprState
  | [] => ([], e)
  | c :: rest =>
    if c = lbrace then
      match takeInnerAny rest with
      | some (inner, n) =>
        let (i, e2) := addValue e (braceLiteral inner)
        let (toks, e3) := scanBrace e2 (rest.drop n)
        ([Tok.vref i] ++ toks, e3)
      | none =>
        let (toks, e2) := scanBrace e rest
        ([.lit (String.mk [c])] ++ toks, e2)
    else
      let (toks, e2) := scanBrace e rest
      ([.lit (String.mk [c])] ++ toks, e2)
  termination_by cs => cs.length
  decreasing_by
    all_goals simp_all [List.length_drop]
    omega

/-- Applies a replacement pass to the literal chunks of an already partly
replaced expression (later `ReplaceAllStringFunc` passes in Go scan the whole
intermediate string; the embedding scans the remaining literal text, which
agrees with the source unless an earlier replacement itself completes a later
pass's token across a chunk boundary). Pure-pass variant. -/
def passOnLitsP (step : ExprState → List Char → TokStr × ExprState) (e : ExprState) :
    TokStr → TokStr × ExprState
  | [] => ([], e)
  | Tok.lit s :: rest =>
    let (ts1, e1) := step e s.data
    let (ts2, e2) := passOnLitsP step e1 rest
    (ts1 ++ ts2, e2)
  | t :: rest =>
    let (ts2, e2) := passOnLitsP step e rest
    (t :: ts2, e2)

/-- `passOnLitsP` for a pass that can fail. -/
def passOnLitsE (step : ExprState → List Char → Except ErrL (TokStr × ExprState))
    (e : ExprState) : TokStr → Except ErrL (TokStr × ExprState)
  | [] => .ok ([], e)
  | Tok.lit s :: rest =>
    match step e s.data with
    | .error err => .error err
    | .ok (ts1, e1) =>
      match passOnLitsE step e1 rest with
      | .error err => .error err
      | .ok (ts2, e2) => .ok (ts1 ++ ts2, e2)
  | t :: rest =>
    match passOnLitsE step e rest with
    | .error err => .error err
    | .ok (ts2, e2) => .ok (t :: ts2, e2)

/-- Merges adjacent literal chunks, so that a later pass scans contiguous
text exactly as the Go passes scan the whole intermediate string. -/
def coalesceLits : TokStr → TokStr
  | [] => []
  | .lit a :: .lit b :: rest => coalesceLits (.lit (a ++ b) :: rest)
  | t :: rest => t :: coalesceLits rest
  termination_by ts => ts.length
  decreasing_by
    all_goals simp_all

/-- Go `expression.expand` (expression.go 388-447): the three replacement
passes over a user-supplied Where/Set string. -/
def expand (flds : List (String × PField)) (subs : Option (List (String × Value)))
    (e : ExprState) (whereS : String) : Except ErrL (TokStr × ExprState) :=
  let (ts1, e1) := scanDollar flds e whereS.data
  match passOnLitsE (scanAt subs) e1 (coalesceLits ts1) with
  | .error err => .error err
  | .ok (ts2, e2) =>
    let (ts3, e3) := passOnLitsP scanBrace e2 (coalesceLits ts2)
    .ok (ts3, e3)

/-- Shorthand for a returned `OneTableArgError`. -/
def argErr (msg : String) : ErrL :=
  { kind := .argError, msg := msg }

/-- The fixed part of the Go `expression` struct set up by `expression.init`
(expression.go 75-100): model, op, params and the resolved index. -/
structure ExprCtx where
  model : ModelL
  op : String
  params : ParamsL
  index : IndexDefL
  hash : String
  sort : String
  canPut : Bool
  executeFlag : Bool
  tableName : String

/-- Go `expression.init` (expression.go 75-100).  The `none` result of
`selectIndex` (schema without a primary index) would be a nil-pointer
dereference in the source and is reported as a panic here. -/
def initExpr (m : ModelL) (op : String) (params : ParamsL) : Except ErrL ExprCtx :=
  match selectIndex m params with
  | none => .error { kind := .panicE, msg := "nil index", viaPanic := true }
  | some idx =>
    if m.hasClient then
      .ok { model := m, op := op, params := params, index := idx
            hash := idx.hash, sort := idx.sort
            canPut := op == "put" || (params.batch && op == "update")
            executeFlag := params.execute.getD true
            tableName := m.tableName }
    else .error (argErr "Table has not yet defined a client instance")

/-- Go `expression.prepareKey` (expression.go 476-479). -/
def prepareKey (cx : ExprCtx) (e : ExprState) (key : String) : TokStr × ExprState :=
  let e1 := { e with already := e.already ++ [key] }
  makeTarget cx.model.fields e1 key

/-- Go `expression.prepareKeyValue` (expression.go 481-489): a string value
containing any of the characters `$`, `\x7b`, `@` is expanded as an
expression, other values become a single value placeholder. -/
def prepareKeyValue (cx : ExprCtx) (e : ExprState) (key : String) (value : Value) :
    Except ErrL ((TokStr × TokStr) × ExprState) :=
  let (target, e1) := prepareKey cx e key
  match value with
  | .vstr s =>
    if s.data.any (fun c => c = '$' || c = lbrace || c = '@') then
      match expand cx.model.fields cx.params.subs e1 s with
      | .error err => .error err
      | .ok (ts, e2) => .ok ((target, ts), e2)
    else
      let (ts, e2) := addValueExp e1 value
      .ok ((target, ts), e2)
  | _ =>
    let (ts, e2) := addValueExp e1 value
    .ok ((target, ts), e2)

/-- Go `assertNotPartition` inside `addUpdateConditions` (expression.go
353-357): writing a primary-key attribute through Add/Delete/Remove/Set/Push
panics with an argument error. -/
def assertNotPartition (cx : ExprCtx) (key opName : String) : Except ErrL Unit :=
  if key = cx.hash ∨ key = cx.sort then
    .error { kind := .argError, viaPanic := true
             msg := "Cannot " ++ opName ++ " hash or sort" }
  else .ok ()

/-- The `params.Add` loop of Go `addUpdateConditions`. -/
def addUpdAdd (cx : ExprCtx) (e : ExprState) : List (String × Value) → Except ErrL ExprState
  | [] => .ok e
  | (key, value) :: rest =>
    match assertNotPartition cx key "add" with
    | .error err => .error err
    | .ok _ =>
      match prepareKeyValue cx e key value with
      | .error err => .error err
      | .ok ((target, varToks), e2) =>
        addUpdAdd cx { e2 with updAdd := e2.updAdd ++ [target ++ [.lit " "] ++ varToks] } rest

/-- The `params.Delete` loop of Go `addUpdateConditions`. -/
def addUpdDel (cx : ExprCtx) (e : ExprState) : List (String × Value) → Except ErrL ExprState
  | [] => .ok e
  | (key, value) :: rest =>
    match assertNotPartition cx key "delete" with
    | .error err => .error err
    | .ok _ =>
      match prepareKeyValue cx e key value with
      | .error err => .error err
      | .ok ((target, varToks), e2) =>
        addUpdDel cx { e2 with updDel := e2.updDel ++ [target ++ [.lit " "] ++ varToks] } rest

/-- The `params.Remove` loop of Go `addUpdateConditions`. -/
def addUpdRemove (cx : ExprCtx) (e : ExprState) : List String → Except ErrL ExprState
  | [] => .ok e
  | key :: rest =>
    match assertNotPartition cx key "remove" with
    | .error err => .error err
    | .ok _ =>
      let (target, e2) := prepareKey cx e key
      addUpdRemove cx { e2 with updRem := e2.updRem ++ [target] } rest

/-- The `params.Set` loop of Go `addUpdateConditions` (`Set` values are
strings). -/
def addUpdSet (cx : ExprCtx) (e : ExprState) : List (String × String) → Except ErrL ExprState
  | [] => .ok e
  | (key, value) :: rest =>
    match assertNotPartition cx key "set" with
    | .error err => .error err
    | .ok _ =>
      match prepareKeyValue cx e key (.vstr value) with
      | .error err => .error err
      | .ok ((target, varToks), e2) =>
        addUpdSet cx { e2 with updSet := e2.updSet ++ [target ++ [.lit " = "] ++ varToks] } rest

/-- The `params.Push` loop of Go `addUpdateConditions`: append to a list with
an `if_not_exists` empty-list fallback. -/
def addUpdPush (cx : ExprCtx) (e : ExprState) : List (String × Value) → Except ErrL ExprState
  | [] => .ok e
  | (key, value) :: rest =>
    match assertNotPartition cx key "push" with
    | .error err => .error err
    | .ok _ =>
      let (emptyIdx, e1) := addValue e (.vlist [])
      let (itemsIdx, e2) := addValue e1 (asSlice value)
      let (target, e3) := prepareKey cx e2 key
      let entry := target ++ [Tok.lit " = list_append(if_not_exists("] ++ target ++
        [Tok.lit ", ", Tok.vref emptyIdx, Tok.lit "), ", Tok.vref itemsIdx, Tok.lit ")"]
      addUpdPush cx { e3 with updSet := e3.updSet ++ [entry] } rest

/-- Go `expression.addUpdateConditions` (expression.go 351-386). -/
def addUpdateConditions (cx : ExprCtx) (e : ExprState) : Except ErrL ExprState :=
  match addUpdAdd cx e cx.params.addP with
  | .error err => .error err
  | .ok e1 =>
    match addUpdDel cx e1 cx.params.deleteP with
    | .error err => .error err
    | .ok e2 =>
      match addUpdRemove cx e2 cx.params.removeP with
      | .error err => .error err
      | .ok e3 =>
        match addUpdSet cx e3 cx.params.setP with
        | .error err => .error err
        | .ok e4 => addUpdPush cx e4 cx.params.pushP

/-- One `attribute_exists(#_N)` / `attribute_not_exists(#_N)` condition. -/
def existsCond (fnName : String) (e : ExprState) (att : String) : ExprState :=
  let (i, e1) := addName e att
  { e1 with conditions := e1.conditions ++ [[Tok.lit (fnName ++ "("), Tok.nref i, Tok.lit ")"]] }

/-- Go `expression.addConditions` (expression.go 258-282): exists conditions,
update sub-clauses and the Where condition. -/
def addConditions (cx : ExprCtx) (e : ExprState) : Except ErrL ExprState :=
  let hash := cx.index.hash
  let sort := cx.index.sort
  let e1 :=
    match cx.params.existsQ with
    | some true =>
      let ea := existsCond "attribute_exists" e hash
      if sort ≠ "" then existsCond "attribute_exists" ea sort else ea
    | some false =>
      let ea := existsCond "attribute_not_exists" e hash
      if sort ≠ "" then existsCond "attribute_not_exists" ea sort else ea
    | none => e
  let step2 : Except ErrL ExprState :=
    if cx.op = "update" then addUpdateConditions cx e1 else .ok e1
  match step2 with
  | .error err => .error err
  | .ok e2 =>
    if cx.params.whereS ≠ "" then
      match expand cx.model.fields cx.params.subs e2 cx.params.whereS with
      | .error err => .error err
      | .ok (ts, e3) => .ok { e3 with conditions := e3.conditions ++ [ts] }
    else .ok e2

/-- Go `expression.addWhereFilters` (expression.go 284-288). -/
def addWhereFilters (cx : ExprCtx) (e : ExprState) : Except ErrL ExprState :=
  if cx.params.whereS ≠ "" then
    match expand cx.model.fields cx.params.subs e cx.params.whereS with
    | .error err => .error err
    | .ok (ts, e2) => .ok { e2 with filters := e2.filters ++ [ts] }
  else .ok e

/-- Go `expression.addFilter` (expression.go 290-296). -/
def addFilter (cx : ExprCtx) (e : ExprState) (path : String) (value : Value) :
    Except ErrL ExprState :=
  if path = cx.hash ∨ path = cx.sort then .ok e
  else
    match prepareKeyValue cx e path value with
    | .error err => .error err
    | .ok ((target, varToks), e2) =>
      .ok { e2 with filters := e2.filters ++ [target ++ [.lit " = "] ++ varToks] }

/-- Go `expression.addGenericFilter` (expression.go 298-300). -/
def addGenericFilter (e : ExprState) (att : String) (value : Value) : ExprState :=
  let (i, e1) := addName e att
  let (j, e2) := addValue e1 value
  { e2 with filters := e2.filters ++ [[Tok.nref i, Tok.lit " = ", Tok.vref j]] }

/-- The operator-map arm of Go `expression.addKey` for find sort conditions:
`begins`/`begins_with`, `between` and the comparison operators; an operator
outside `KeyOperators` panics with an argument error. -/
def addKeyFindMap (e : ExprState) (att : String) : List (String × Value) → Except ErrL ExprState
  | [] => .ok e
  | (action, vars) :: rest =>
    if ¬ (containsStr keyOperators action) then
      .error { kind := .argError, viaPanic := true
               msg := "Invalid KeyCondition operator \"" ++ action ++ "\"" }
    else
      let e2 :=
        if action = "begins_with" ∨ action = "begins" then
          let (i, ea) := addName e att
          let (j, eb) := addValue ea vars
          { eb with keys := eb.keys ++
            [[Tok.lit "begins_with(", Tok.nref i, Tok.lit ", ", Tok.vref j, Tok.lit ")"]] }
        else if action = "between" then
          match vars with
          | .vlist [a, b] =>
            let (i, ea) := addName e att
            let (j, eb) := addValue ea a
            let (k2, ec) := addValue eb b
            { ec with keys := ec.keys ++
              [[Tok.nref i, Tok.lit " BETWEEN ", Tok.vref j, Tok.lit " AND ", Tok.vref k2]] }
          | _ => e
        else
          let (i, ea) := addName e att
          let (j, eb) := addValue ea vars
          { eb with keys := eb.keys ++
            [[Tok.nref i, Tok.lit (" " ++ action ++ " "), Tok.vref j]] }
      addKeyFindMap e2 att rest

/-- Go `expression.addKey` (expression.go 302-332): key conditions for find,
`Key` map entries for keys-only operations. -/
def addKey (cx : ExprCtx) (e : ExprState) (field : PField) (value : Value) :
    Except ErrL ExprState :=
  let att := field.att0
  if cx.op = "find" then
    let scalar : ExprState :=
      let (i, ea) := addName e att
      let (j, eb) := addValue ea value
      { eb with keys := eb.keys ++ [[Tok.nref i, Tok.lit " = ", Tok.vref j]] }
    if att = cx.sort then
      match value with
      | .vmap obj =>
        if obj.length > 0 then addKeyFindMap e att obj else .ok scalar
      | _ => .ok scalar
    else .ok scalar
  else
    .ok { e with keyItem := itemSet e.keyItem att value, already := e.already ++ [att] }

/-- Go `expression.addUpdate` (expression.go 334-349). -/
def addUpdate (cx : ExprCtx) (e : ExprState) (field : PField) (path : String) (value : Value) :
    ExprState :=
  if path = cx.hash ∨ path = cx.sort then e
  else if field.core.name = cx.model.typeField ∧
      ¬ (cx.params.existsQ = none ∨ cx.params.existsQ = some false) then e
  else if containsStr cx.params.removeP field.core.name then e
  else
    let (target, e1) := prepareKey cx e path
    let (varToks, e2) := addValueExp e1 value
    { e2 with updSet := e2.updSet ++ [target ++ [.lit " = "] ++ varToks] }

/-- Polymorphic association-list write (Go map assignment). -/
def setAssoc {α : Type} (l : List (String × α)) (k : String) (v : α) : List (String × α) :=
  match l with
  | [] => [(k, v)]
  | (k2, v2) :: rest => if k2 = k then (k, v) :: rest else (k2, v2) :: setAssoc rest k v

/-- A successful association-list lookup returns a structurally smaller value
(used for the well-founded recursion over nested field blocks). -/
def lookupStr_sizeOf {α : Type} [SizeOf α] :
    (l : List (String × α)) → (k : String) → (v : α) →
    lookupStr l k = some v → sizeOf v < sizeOf l
  | [], _, _, h => by simp [lookupStr] at h
  | (k2, v2) :: rest, k, v, h => by
    by_cases hk : k2 = k
    · rw [lookupStr, if_pos hk] at h
      cases h
      simp only [List.cons.sizeOf_spec, Prod.mk.sizeOf_spec]
      omega
    · rw [lookupStr, if_neg hk] at h
      have ih := lookupStr_sizeOf rest k v h
      simp only [List.cons.sizeOf_spec]
      omega

/-- A field's nested block is structurally smaller than the field. -/
def blockFields_sizeOf : (f : PField) → sizeOf f.blockFields < sizeOf f := by
  intro f
  cases f with
  | mk c fl d b =>
    simp [PField.blockFields]
    omega

/-- The synthetic `preparedField` Go builds for unknown and mapped attributes
(`&preparedField\x7bAttribute: []string\x7bname\x7d, Name: name\x7d`). -/
def synthField (name : String) : PField :=
  .mk { name := name, attPath := [name], fdef := {} } [] [] false

/-- Go `expression.add` (expression.go 207-251): one field value becomes a
key condition, Key entry, filter or update clause depending on the operation.
The source's `properties[top] = value` write in the packed branch mutates the
prepared record for puts and is not observed by any embedded output. -/
def addOne (cx : ExprCtx) (e : ExprState) (properties : Item) (field : PField)
    (path : String) (value : Value) (emit : Bool) : Except ErrL ExprState :=
  if containsStr e.already path then .ok e
  else
    match field.core.attPath with
    | top :: sub :: _ =>
      let m0 := (lookupStr e.mapped top).getD []
      .ok { e with mapped := setAssoc e.mapped top (itemSet m0 sub value) }
    | _ =>
      if path = cx.hash ∨ path = cx.sort then
        if cx.op = "find" then addKey cx e field value
        else if cx.op = "scan" then
          if ¬ (goGet properties field.core.name).isNil ∧ ¬ filterDisabled field then
            addFilter cx e path value
          else .ok e
        else if cx.op = "delete" ∨ cx.op = "get" ∨ cx.op = "update" ∨ cx.op = "check" then
          if field.core.isIndexed then addKey cx e field value else .ok e
        else .ok e
      else if emit then
        if cx.op = "find" ∨ cx.op = "scan" then
          if ¬ (goGet properties field.core.name).isNil ∧ ¬ filterDisabled field ∧
              ¬ cx.params.batch then
            addFilter cx e path value
          else .ok e
        else if cx.op = "update" then .ok (addUpdate cx e field path value)
        else .ok e
      else .ok e

mutual

/-- The body of Go `expression.addProperties` (expression.go 150-204):
iterates the property map (`fullProps` is the whole map as passed to
`e.add`, `props` the remaining entries), accumulating the emitted record in
`rec`. -/
def addPropsGo (cx : ExprCtx) (e : ExprState) (blockFields : List (String × PField))
    (fullProps : Item) (rec : Item) :
    List (String × Value) → Except ErrL (Item × ExprState)
  | [] => .ok (rec, e)
  | (name, value) :: restProps =>
    match lookupStr blockFields name with
    | none =>
      if cx.model.generic then
        match addOne cx e fullProps (synthField name) name value true with
        | .error err => .error err
        | .ok e2 => addPropsGo cx e2 blockFields fullProps (itemSet rec name value) restProps
      else addPropsGo cx e blockFields fullProps (itemSet rec name value) restProps
    | some field =>
      let path := field.att0
      if ¬ field.hasBlock then
        match addOne cx e fullProps field path value true with
        | .error err => .error err
        | .ok e2 => addPropsGo cx e2 blockFields fullProps (itemSet rec path value) restProps
      else
        let isPart := getPartFlag cx.model field cx.params
        if field.core.isArray then
          match value with
          | .vlist arr =>
            match addPropsArr cx e field.blockFields arr with
            | .error err => .error err
            | .ok (cp, e2) =>
              if ¬ isPart then
                match addOne cx e2 fullProps field path (.vlist cp) true with
                | .error err => .error err
                | .ok e3 =>
                  addPropsGo cx e3 blockFields fullProps (itemSet rec path (.vlist cp)) restProps
              else
                addPropsGo cx e2 blockFields fullProps (itemSet rec path (.vlist cp)) restProps
          | _ =>
            addPropsGo cx e blockFields fullProps (itemSet rec path value) restProps
        else
          match value with
          | .vmap subProps =>
            match addPropsGo cx e field.blockFields subProps [] subProps with
            | .error err => .error err
            | .ok (nested, e2) =>
              if ¬ isPart then
                match addOne cx e2 fullProps field path (.vmap nested) true with
                | .error err => .error err
                | .ok e3 =>
                  addPropsGo cx e3 blockFields fullProps (itemSet rec path (.vmap nested)) restProps
              else
                addPropsGo cx e2 blockFields fullProps (itemSet rec path (.vmap nested)) restProps
          | _ =>
            if ¬ isPart then
              match addOne cx e fullProps field path value true with
              | .error err => .error err
              | .ok e3 =>
                addPropsGo cx e3 blockFields fullProps (itemSet rec path value) restProps
            else
              addPropsGo cx e blockFields fullProps (itemSet rec path value) restProps

/-- The per-element loop of the array branch of Go `expression.addProperties`:
map elements recurse into the nested block, other elements pass through. -/
def addPropsArr (cx : ExprCtx) (e : ExprState) (subFields : List (String × PField)) :
    List Value → Except ErrL (List Value × ExprState)
  | [] => .ok ([], e)
  | v :: restArr =>
    match v with
    | .vmap subProps =>
      match addPropsGo cx e subFields subProps [] subProps with
      | .error err => .error err
      | .ok (nested, e2) =>
        match addPropsArr cx e2 subFields restArr with
        | .error err => .error err
        | .ok (cp, e3) => .ok (.vmap nested :: cp, e3)
    | _ =>
      match addPropsArr cx e subFields restArr with
      | .error err => .error err
      | .ok (cp, e2) => .ok (v :: cp, e2)

end

/-- Go `expression.addProperties` entry point: the property map is both the
iteration subject and the map handed to `e.add`. -/
def addProperties (cx : ExprCtx) (e : ExprState) (blockFields : List (String × PField))
    (properties : Item) : Except ErrL (Item × ExprState) :=
  addPropsGo cx e blockFields properties [] properties

/-- The packed-attribute completeness check of Go `expression.prepare`
(expression.go 122-127). -/
def checkMapped (cx : ExprCtx) : List (String × Item) → Except ErrL Unit
  | [] => .ok ()
  | (att, props) :: rest =>
    let expected := ((lookupStr cx.model.mappings att).getD []).length
    if props.length ≠ expected then
      .error (argErr ("Missing properties for mapped field \"" ++ att ++ "\" in model \"" ++
        cx.model.name ++ "\""))
    else checkMapped cx rest

/-- The mapped-attribute emission loop of Go `expression.prepare`
(expression.go 129-134). -/
def prepareMapped (cx : ExprCtx) (e : ExprState) (properties : Item) :
    List (String × Item) → Except ErrL ExprState
  | [] => .ok e
  | (k, v) :: rest =>
    match addOne cx e properties (synthField k) k (.vmap v) true with
    | .error err => .error err
    | .ok e2 => prepareMapped cx { e2 with putsI := itemSet e2.putsI k (.vmap v) } properties rest

/-- The projection-fields loop of Go `expression.prepare`
(expression.go 136-145). -/
def addProjection (cx : ExprCtx) (e : ExprState) : List String → ExprState
  | [] => e
  | name :: rest =>
    if cx.params.batch ∨ cx.model.generic then
      let (i, e1) := addName e name
      addProjection cx { e1 with project := e1.project ++ [[Tok.nref i]] } rest
    else
      match lookupStr cx.model.fields name with
      | some f =>
        let (i, e1) := addName e f.att0
        addProjection cx { e1 with project := e1.project ++ [[Tok.nref i]] } rest
      | none => addProjection cx e rest

/-- The generic-scan unknown-field filter loop of Go `expression.prepare`
(expression.go 112-116). -/
def scanGenericFilters (cx : ExprCtx) (e : ExprState) :
    List (String × Value) → ExprState
  | [] => e
  | (name, value) :: rest =>
    if (lookupStr cx.model.fields name).isNone ∧ ¬ value.isNil then
      scanGenericFilters cx (addGenericFilter e name value) rest
    else scanGenericFilters cx e rest

/-- Go `expression.prepare` (expression.go 102-147). -/
def prepare (cx : ExprCtx) (e : ExprState) (properties : Item) : Except ErrL ExprState :=
  let step1 : Except ErrL ExprState :=
    if cx.op = "find" then addWhereFilters cx e
    else if cx.op = "delete" ∨ cx.op = "put" ∨ cx.op = "update" ∨ cx.op = "check" then
      addConditions cx e
    else if cx.op = "scan" then
      match addWhereFilters cx e with
      | .error err => .error err
      | .ok ea => .ok (scanGenericFilters cx ea properties)
    else .ok e
  match step1 with
  | .error err => .error err
  | .ok e1 =>
    match addProperties cx e1 cx.model.fields properties with
    | .error err => .error err
    | .ok (rec, e2) =>
      let e3 := { e2 with putsI := rec }
      match checkMapped cx e3.mapped with
      | .error err => .error err
      | .ok _ =>
        match prepareMapped cx e3 properties e3.mapped with
        | .error err => .error err
        | .ok e4 =>
          match cx.params.fieldsP with
          | some fieldNames => .ok (addProjection cx e4 fieldNames)
          | none => .ok e4

/-- The command envelope Go `expression.command` assembles (expression.go
545-761); `none` fields model keys the final `cleaned` map does not carry.
Batch mode yields an envelope holding only `keyI` or `itemI`. -/
structure CommandL where
  tableName : String := ""
  conditionExpr : Option TokStr := none
  filterExpr : Option TokStr := none
  keyCondExpr : Option TokStr := none
  projExpr : Option TokStr := none
  updateExpr : Option TokStr := none
  eans : Option (List (String × String)) := none
  eavs : Option (List (String × Value)) := none
  keyI : Option Item := none
  itemI : Option Item := none
  selectS : Option String := none
  returnValues : Option String := none
  consistentRead : Option Bool := none
  indexName : Option String := none
  limitN : Option Nat := none
  scanForward : Option Bool := none
  startKey : Option Item := none
  totalSegments : Option Nat := none
  segmentN : Option Nat := none
  retCapacity : Option String := none
  retMetrics : Option String := none

/-- The return-values resolution of Go `expression.command` (the `Return`
switch plus the per-operation defaults). -/
def computeReturnValues (op : String) (ret : Option RetVal) : String :=
  let rv : String :=
    match ret with
    | some (.rbool true) => if op = "delete" then "ALL_OLD" else "ALL_NEW"
    | some (.rbool false) => "NONE"
    | some (.rstr r) =>
      if r.toLower = "none" then "NONE" else if r ≠ "get" then r else ""
    | none => ""
  if rv ≠ "" then rv
  else if op = "put" then "NONE"
  else if op = "update" then "ALL_NEW"
  else if op = "delete" then "ALL_OLD"
  else ""

/-- The `ExclusiveStartKey` assembly of Go `expression.command`
(expression.go 712-738). -/
def computeStartKey (cx : ExprCtx) : Option Item :=
  let params := cx.params
  match params.next <|> params.prev with
  | none => none
  | some cursor =>
    let start0 : Item := [(cx.hash, goGet cursor cx.hash)]
    let start1 :=
      if cx.sort ≠ "" ∧ ¬ (goGet cursor cx.sort).isNil then
        itemSet start0 cx.sort (goGet cursor cx.sort)
      else start0
    let start2 :=
      if params.index ≠ "" ∧ params.index ≠ "primary" then
        match lookupStr cx.model.indexes "primary" with
        | some pi =>
          let s1 := itemSet start1 pi.hash (goGet cursor pi.hash)
          if pi.sort ≠ "" ∧ ¬ (goGet cursor pi.sort).isNil then
            itemSet s1 pi.sort (goGet cursor pi.sort)
          else s1
        | none => start1
      else start1
    if ¬ (goGet start2 cx.hash).isNil then some start2 else none

/-- Go `expression.and` (expression.go 533-542): a single term passes
through, several terms are parenthesised and joined with ` and `. -/
def joinParen (terms : List TokStr) : TokStr :=
  match terms with
  | [t] => t
  | _ => joinToks " and " (terms.map (fun t => [Tok.lit "("] ++ t ++ [Tok.lit ")"]))

/-- Go `expression.command` (expression.go 545-761) without the external
`PostFormat` hook (an arbitrary caller-supplied rewrite of the command map,
out of the embedding's scope). -/
def command (cx : ExprCtx) (e : ExprState) : Except ErrL CommandL :=
  let op := cx.op
  let params := cx.params
  if params.batch then
    if op = "get" then
      if e.filters.length > 0 then .error (argErr "Invalid filters with batch operation")
      else .ok { tableName := "", keyI := some e.keyItem }
    else if op = "delete" then
      if e.filters.length > 0 then .error (argErr "Invalid filters with batch operation")
      else .ok { tableName := "", keyI := some e.keyItem }
    else if op = "put" then
      if e.filters.length > 0 then .error (argErr "Invalid filters with batch operation")
      else .ok { tableName := "", itemI := some e.putsI }
    else .error (argErr ("Unsupported batch operation \"" ++ op ++ "\""))
  else
    let condExpr := if e.conditions.length > 0 then some (joinParen e.conditions) else none
    let filterExpr := if e.filters.length > 0 then some (joinParen e.filters) else none
    let keyCondExpr := if e.keys.length > 0 then some (joinToks " and " e.keys) else none
    let projExpr := if e.project.length > 0 then some (joinToks ", " e.project) else none
    let eans := if e.names.length > 0 then some e.names else none
    let eavs := if e.names.length > 0 ∧ e.values.length > 0 then some e.values else none
    let selectS :=
      if params.selectP ≠ "" then some params.selectP
      else if params.countP then some "COUNT"
      else none
    let cap :=
      if params.statsOn ∨ cx.model.metricsOn then
        (some (if params.capacity ≠ "" then params.capacity else "TOTAL"),
         some "SIZE")
      else (none, none)
    let rvStr := computeReturnValues op params.ret
    let base : CommandL :=
      { tableName := cx.tableName
        conditionExpr := condExpr, filterExpr := filterExpr
        keyCondExpr := keyCondExpr, projExpr := projExpr
        eans := eans, eavs := eavs
        selectS := selectS
        retCapacity := cap.1, retMetrics := cap.2 }
    let c1 :=
      if op = "put" then { base with itemI := some e.putsI, returnValues := some rvStr }
      else if op = "update" then
        let parts : List TokStr :=
          (if e.updAdd.length > 0 then [[Tok.lit "add "] ++ joinToks ", " e.updAdd] else []) ++
          (if e.updDel.length > 0 then [[Tok.lit "delete "] ++ joinToks ", " e.updDel] else []) ++
          (if e.updRem.length > 0 then [[Tok.lit "remove "] ++ joinToks ", " e.updRem] else []) ++
          (if e.updSet.length > 0 then [[Tok.lit "set "] ++ joinToks ", " e.updSet] else [])
        { base with returnValues := some rvStr, updateExpr := some (joinToks " " parts) }
      else if op = "delete" then { base with returnValues := some rvStr }
      else base
    let c2 :=
      if op = "delete" ∨ op = "get" ∨ op = "update" ∨ op = "check" then
        { c1 with keyI := some e.keyItem }
      else c1
    let c3 :=
      if op = "find" ∨ op = "get" ∨ op = "scan" then
        { c2 with
          consistentRead := some params.consistent
          indexName :=
            if params.index ≠ "" ∧ params.index ≠ "primary" then some params.index else none }
      else c2
    let c4 :=
      if op = "find" ∨ op = "scan" then
        let prevMode := params.prev.isSome && params.next.isNone
        { c3 with
          limitN := if params.limit > 0 then some params.limit else none
          scanForward := some (params.reverse == prevMode)
          startKey := computeStartKey cx }
      else c3
    let c5 :=
      if op = "scan" then
        { c4 with
          totalSegments := if params.segments > 0 then some params.segments else none
          segmentN := if params.segment > 0 then some params.segment else none }
      else c4
    .ok c5

/-- Go `newExpression` (expression.go 64-73): init plus prepare. -/
def newExpression (m : ModelL) (op : String) (properties : Item) (params : ParamsL) :
    Except ErrL (ExprCtx × ExprState) :=
  match initExpr m op params with
  | .error err => .error err
  | .ok cx =>
    match prepare cx {} properties with
    | .error err => .error err
    | .ok e => .ok (cx, e)

/-! Property preparation (model.go). -/

/-- The external regular-expression engine (`regexp.Compile` +
`MatchString`): compiling a pattern yields a matcher or fails. -/
structure RegexLib where
  rcompile : String → Option (String → Bool)

/-- The external time library: RFC-3339 parsing to epoch milliseconds and
formatting back (`time.Parse` / `Format(time.RFC3339Nano)`). -/
structure TimeLib where
  parseIso : String → Option Int
  fmtIso : Int → String

/-- Splits at the first occurrence of `sep`, when there is one. -/
def breakAtCharQ (sep : Char) : List Char → Option (List Char × List Char)
  | [] => none
  | c :: rest =>
    if c = sep then some ([], rest)
    else
      match breakAtCharQ sep rest with
      | some (a, b) => some (c :: a, b)
      | none => none

/-- Go `strings.SplitN(s, sep, n)` for a one-character separator. -/
def splitNCharGo (sep : Char) (n : Nat) (cs : List Char) : List (List Char) :=
  if n ≤ 1 then [cs]
  else
    match breakAtCharQ sep cs with
    | none => [cs]
    | some (before, after) => before :: splitNCharGo sep (n - 1) after

/-- Go `strconv.Atoi` with the Go zero value on error. -/
def goAtoi (s : String) : Int :=
  (parseGoNum s.data).getD 0

/-- The padding loop of Go `Model.runTemplate`
(`for len(s) < length \x7b s = pad + s \x7d`).  With an empty pad and a
deficit the source loops forever; the embedding returns `s` unchanged there. -/
def padLoop (pad : String) (length : Int) (s : String) : String :=
  if 0 < pad.length ∧ (s.length : Int) < length then
    padLoop pad length (pad ++ s)
  else s
  termination_by (length - (s.length : Int)).toNat
  decreasing_by
    simp only [String.length_append]
    omega

/-- The `ReplaceAllStringFunc` body of Go `Model.runTemplate` (model.go
1101-1135): resolve `$\x7bpath[:len[:pad]]\x7d`, keeping the token text when
the referenced property is missing.  The `time.Time` stringification branch
has no representative in the embedded value universe. -/
def tmplReplace (properties : Item) (inner : List Char) : String :=
  let parts := (splitNCharGo ':' 3 inner).map String.mk
  let varName := parts.headD ""
  let v := getPropValue properties varName
  if v.isNil then
    "$" ++ String.mk [lbrace] ++ String.mk inner ++ String.mk [rbrace]
  else
    let s := showValue v
    match parts with
    | _ :: lenStr :: restP =>
      let len := goAtoi lenStr
      let pad := match restP with | p :: _ => p | [] => "0"
      padLoop pad len s
    | _ => s

/-- The template scan of Go `Model.runTemplate`: replace each
`$\x7b...\x7d` token via `tmplReplace`, leaving unmatched text in place. -/
def tmplScan (properties : Item) : List Char → String
  | [] => ""
  | c :: rest =>
    if c = '$' then
      match rest with
      | c2 :: rest2 =>
        if c2 = lbrace then
          match takeInnerTmpl rest2 with
          | some (inner, n) =>
            tmplReplace properties inner ++ tmplScan properties (rest2.drop n)
          | none => "$" ++ tmplScan properties (c2 :: rest2)
        else "$" ++ tmplScan properties (c2 :: rest2)
      | [] => "$"
    else String.mk [c] ++ tmplScan properties rest
  termination_by cs => cs.length
  decreasing_by
    all_goals simp_all [List.length_drop]
    omega

/-- Does the string still contain a `$\x7b` occurrence? (Go
`strings.Contains(result, ...)` in `runTemplate`.) -/
def containsDB : List Char → Bool
  | [] => false
  | c :: rest => (c == '$' && rest.headD ' ' == lbrace) || containsDB rest

/-- The text before the first `$\x7b` occurrence (the `begins` prefix in
`runTemplate`). -/
def takeUntilDB : List Char → List Char
  | [] => []
  | c :: rest =>
    if c = '$' ∧ rest.headD ' ' = lbrace then []
    else c :: takeUntilDB rest

/-- Go `Model.runTemplate` (model.go 1099-1150).  The `(any, error)` result
is mirrored as `Except ErrL (Option Value)`; the source constructs no error
value on any path. -/
def runTemplate (op : String) (index : Option IndexDefL) (field : PField)
    (properties : Item) (tmpl : String) : Except ErrL (Option Value) :=
  let result := tmplScan properties tmpl.data
  if containsDB result.data then
    match index with
    | some idx =>
      if field.att0 = idx.sort ∧ op = "find" then
        let pre := String.mk (takeUntilDB result.data)
        if pre ≠ "" then .ok (some (.vmap [("begins", .vstr pre)]))
        else .ok none
      else .ok none
    | none => .ok none
  else .ok (some (.vstr result))

/-- Go `Model.runTemplates` (model.go 1070-1096): expand value templates in
dependency order, skipping fields already present and index fields outside
the active index on read operations. -/
def runTemplates (op : String) (index : IndexDefL) (deps : List PField)
    (properties : Item) : Except ErrL Item :=
  match deps with
  | [] => .ok properties
  | field :: rest =>
    if field.hasBlock then runTemplates op index rest properties
    else if field.core.isIndexed ∧ op ≠ "put" ∧ op ≠ "update" ∧
        field.att0 ≠ index.hash ∧ field.att0 ≠ index.sort then
      runTemplates op index rest properties
    else if field.core.valueTemplate = "" then runTemplates op index rest properties
    else if itemHas properties field.core.name then runTemplates op index rest properties
    else
      match runTemplate op (some index) field properties field.core.valueTemplate with
      | .error err => .error err
      | .ok (some val) =>
        runTemplates op index rest (itemSet properties field.core.name val)
      | .ok none => runTemplates op index rest properties

/-- Go `Model.addContext` (model.go 1025-1039): context values fill fields
absent from the input (never the active index keys on non-put operations),
and the type discriminator is stamped for non-generic models. -/
def addContextFields (index : IndexDefL) (op : String) (context : Item)
    (properties : Item) : List (String × PField) → Item
  | [] => properties
  | (_, field) :: rest =>
    if field.hasBlock then addContextFields index op context properties rest
    else if (op = "put" ∨ (field.att0 ≠ index.hash ∧ field.att0 ≠ index.sort)) ∧
        itemHas context field.core.name then
      addContextFields index op context
        (itemSet properties field.core.name (goGet context field.core.name)) rest
    else addContextFields index op context properties rest

/-- Go `Model.addContext` including the type-field stamp. -/
def addContext (m : ModelL) (op : String) (fields : List (String × PField))
    (index : IndexDefL) (properties : Item) (context : Item) : Item :=
  let p1 := addContextFields index op context properties fields
  if ¬ m.generic then itemSet p1 m.typeField (.vstr m.name) else p1

/-- Go `Model.setDefaults` (model.go 1042-1067): defaults and generated
identifiers on put/init and on upsert (update with `Exists` unset). -/
def setDefaultsFields (m : ModelL) (op : String) (properties : Item) :
    List (String × PField) → Item
  | [] => properties
  | (_, field) :: rest =>
    if field.hasBlock then setDefaultsFields m op properties rest
    else if itemHas properties field.core.name then setDefaultsFields m op properties rest
    else if field.core.valueTemplate ≠ "" then setDefaultsFields m op properties rest
    else
      match field.core.fdef.dflt with
      | some d => setDefaultsFields m op (itemSet properties field.core.name d) rest
      | none =>
        if op = "init" then
          if field.core.fdef.generate = "" then
            setDefaultsFields m op (itemSet properties field.core.name .vnull) rest
          else setDefaultsFields m op properties rest
        else if field.core.fdef.generate ≠ "" then
          setDefaultsFields m op
            (itemSet properties field.core.name (.vstr (m.generate field.core.fdef.generate))) rest
        else setDefaultsFields m op properties rest

/-- Go `Model.setDefaults` entry guard. -/
def setDefaults (m : ModelL) (op : String) (fields : List (String × PField))
    (properties : Item) (params : ParamsL) : Item :=
  if op ≠ "put" ∧ op ≠ "init" ∧ ¬ (op = "update" ∧ params.existsQ = none) then properties
  else setDefaultsFields m op properties fields

/-- Go `Model.convertNulls` (model.go 1153-1171): null values of fields whose
policy rejects nulls are deleted and their (possibly dotted) paths appended
to `params.Remove`; required fields are left for validation. -/
def convertNullsGo (pathname : String) (fields : List (String × PField))
    (properties : Item) (params : ParamsL) :
    List (String × Value) → Item × ParamsL
  | [] => (properties, params)
  | (name, value) :: rest =>
    match lookupStr fields name with
    | none => convertNullsGo pathname fields properties params rest
    | some field =>
      if field.hasBlock then convertNullsGo pathname fields properties params rest
      else if value.isNil ∧ ¬ field.core.nulls then
        if field.core.required then convertNullsGo pathname fields properties params rest
        else
          let path := if pathname ≠ "" then pathname ++ "." ++ name else name
          convertNullsGo pathname fields (itemErase properties name)
            { params with removeP := params.removeP ++ [path] } rest
      else convertNullsGo pathname fields properties params rest

/-- Go `Model.convertNulls` entry point (iterates the property map). -/
def convertNulls (pathname : String) (fields : List (String × PField))
    (properties : Item) (params : ParamsL) : Item × ParamsL :=
  convertNullsGo pathname fields properties params properties

/-- Go `strings.Join`. -/
def joinStrs (sep : String) : List String → String
  | [] => ""
  | [s] => s
  | s :: rest => s ++ sep ++ joinStrs sep rest

/-- Index of the last occurrence of `c` (Go `strings.LastIndex`), `-1` when
absent.  Character positions stand in for Go byte offsets (identical for
ASCII patterns). -/
def lastIndexOfChar (c : Char) : List Char → Int
  | [] => -1
  | x :: rest =>
    let r := lastIndexOfChar c rest
    if r ≥ 0 then r + 1
    else if x = c then 0 else -1

/-- Go `Model.validateProperty` (model.go 1214-1251): regex validation in
`/pattern/flags` or bare form (through the external regex engine) and
case-sensitive enum matching; failures are recorded in the details map, and
the function itself never returns an error. -/
def validateProperty (rx : RegexLib) (field : PField) (value : Value)
    (details : List (String × String)) : List (String × String) :=
  let name := field.core.name
  let badMsg := "Bad value \"" ++ showValue value ++ "\" for \"" ++ name ++ "\""
  let d1 :=
    if field.core.fdef.validate ≠ "" then
      let pat := field.core.fdef.validate
      let s := match value with | .vstr str => str | _ => ""
      if pat.data.headD ' ' = '/' then
        let last := lastIndexOfChar '/' pat.data
        if last > 0 then
          let flags := String.mk (pat.data.drop (last.toNat + 1))
          let inner0 := String.mk ((pat.data.drop 1).take (last.toNat - 1))
          let inner := if flags ≠ "" then "(?" ++ flags ++ ")" ++ inner0 else inner0
          match rx.rcompile inner with
          | some matcher => if ¬ matcher s then setAssoc details name badMsg else details
          | none => details
        else details
      else
        match rx.rcompile pat with
        | some matcher => if ¬ matcher s then setAssoc details name badMsg else details
        | none => details
    else details
  match field.core.fdef.enum with
  | some enumList =>
    let s := showValue value
    if ¬ containsStr enumList s then setAssoc d1 name badMsg else d1
  | none => d1

/-- The first loop of Go `Model.validateProperties`: regex/enum checks over
the present properties. -/
def validatePropsLoop (rx : RegexLib) (fields : List (String × PField))
    (validation : List (String × String)) : List (String × Value) → List (String × String)
  | [] => validation
  | (name, value) :: rest =>
    match lookupStr fields name with
    | none => validatePropsLoop rx fields validation rest
    | some field =>
      if field.hasBlock then validatePropsLoop rx fields validation rest
      else if field.core.fdef.validate ≠ "" ∨ field.core.fdef.enum ≠ none then
        validatePropsLoop rx fields (validateProperty rx field value validation) rest
      else validatePropsLoop rx fields validation rest

/-- The required-field loop of Go `Model.validateProperties`: absent or null
on put, explicitly null on update. -/
def validateRequired (op : String) (properties : Item)
    (validation : List (String × String)) : List (String × PField) → List (String × String)
  | [] => validation
  | (_, field) :: rest =>
    if field.core.required ∧ ¬ field.hasBlock then
      let name := field.core.name
      let msg := "Value not defined for required field \"" ++ name ++ "\""
      match itemGet? properties name with
      | none =>
        if op = "put" then validateRequired op properties (setAssoc validation name msg) rest
        else validateRequired op properties validation rest
      | some v =>
        if v.isNil ∧ (op = "put" ∨ op = "update") then
          validateRequired op properties (setAssoc validation name msg) rest
        else validateRequired op properties validation rest
    else validateRequired op properties validation rest

/-- Go `Model.validateProperties` (model.go 1174-1212): all failures are
collected into one validation map and surfaced as a single `Validation`
error naming every offending field. -/
def validateProperties (rx : RegexLib) (m : ModelL) (op : String)
    (fields : List (String × PField)) (properties : Item) : Except ErrL Unit :=
  if op ≠ "put" ∧ op ≠ "update" then .ok ()
  else
    let v1 := validatePropsLoop rx fields [] properties
    let v2 := validateRequired op properties v1 fields
    if v2.length > 0 then
      .error { kind := .validation
               msg := "Validation Error in \"" ++ m.name ++ "\" for \"" ++
                 joinStrs ", " (v2.map Prod.fst) ++ "\""
               validationCtx := v2 }
    else .ok ()

/-- Go `unique` (model.go 2067-2077): order-preserving dedup dropping empty
strings. -/
def uniqueStrs (seen : List String) : List String → List String
  | [] => []
  | v :: rest =>
    if v ≠ "" ∧ ¬ containsStr seen v then v :: uniqueStrs (seen ++ [v]) rest
    else uniqueStrs seen rest

/-- Go `Model.getProjection` (model.go 1299-1329). -/
def getProjection (m : ModelL) (index : IndexDefL) : Option (List String) :=
  match index.project with
  | none => none
  | some (.pstr p) =>
    if p = "keys" then
      match lookupStr m.indexes "primary" with
      | some primary => some (uniqueStrs [] [primary.hash, primary.sort, index.hash, index.sort])
      | none => none
    else none
  | some (.plist l) =>
    match lookupStr m.indexes "primary" with
    | some primary =>
      some (uniqueStrs [] (l ++ [primary.hash, primary.sort, index.hash, index.sort]))
    | none => none

/-- Is `att` excluded by the active projection list? (the
`project != nil && !containsStr(project, att)` test in `selectProperties`
and `addProjectedProperties`). -/
def projOmits (project : Option (List String)) (att : String) : Bool :=
  match project with
  | some pr => ¬ containsStr pr att
  | none => false

/-- The field loop of Go `Model.selectProperties` (model.go 1254-1292); the
third result component records the source's early `return` on a missing sort
key (the fallback signal). -/
def selectPropsLoop (m : ModelL) (op : String) (isTop : Bool) (index : IndexDefL)
    (project : Option (List String)) (properties : Item) (params : ParamsL) (rec : Item) :
    List (String × PField) → Item × ParamsL × Bool
  | [] => (rec, params, false)
  | (name, field) :: rest =>
    if field.hasBlock then
      selectPropsLoop m op isTop index project properties params rec rest
    else if isTop then
      let att := field.att0
      if (goGet properties name).isNil ∧ att = index.sort ∧ params.high ∧ keysOnlyOp op then
        (rec, { params with fback := true }, true)
      else
        let omitF :=
          if keysOnlyOp op ∧ att ≠ index.hash ∧ att ≠ index.sort ∧ ¬ m.hasUniqueFields then
            true
          else if projOmits project att then
            true
          else if name = m.typeField ∧ name ≠ index.hash ∧ name ≠ index.sort ∧ op = "find" then
            true
          else if field.core.fdef.encode.isSome then true
          else false
        let rec2 :=
          if ¬ omitF ∧ itemHas properties name then itemSet rec name (goGet properties name)
          else rec
        selectPropsLoop m op isTop index project properties params rec2 rest
    else
      let rec2 :=
        if itemHas properties name then itemSet rec name (goGet properties name) else rec
      selectPropsLoop m op isTop index project properties params rec2 rest

/-- Go `Model.addProjectedProperties` (model.go 1331-1353): generic models
carry all remaining input properties, restricted by the projection.  (The
`time.Time` re-formatting in this loop has no representative in the embedded
universe.) -/
def addProjectedProps (project : Option (List String)) (rec : Item) :
    List (String × Value) → Item
  | [] => rec
  | (name, value) :: rest =>
    if projOmits project name then
      addProjectedProps project rec rest
    else if itemHas rec name then addProjectedProps project rec rest
    else addProjectedProps project (itemSet rec name value) rest

/-- Go `Model.selectProperties` including the generic projection tail. -/
def selectProperties (m : ModelL) (op : String) (isTop : Bool)
    (fields : List (String × PField)) (index : IndexDefL) (properties : Item)
    (params : ParamsL) (rec : Item) : Item × ParamsL :=
  let project := getProjection m index
  let (rec1, params1, early) := selectPropsLoop m op isTop index project properties params rec fields
  if early then (rec1, params1)
  else if isTop ∧ m.generic ∧ ¬ keysOnlyOp op then
    (addProjectedProps project rec1 properties, params1)
  else (rec1, params1)

/-- Go `Model.transformWriteDate` (model.go 1460-1505) over the embedded
universe (`time.Time` inputs have no representative; strings go through the
external parser; the Go zero-time `Unix()` constant shows up on parse
failures of TTL strings). -/
def transformWriteDate (tl : TimeLib) (field : PField) (value : Value) : Value :=
  if field.core.fdef.ttl then
    match value with
    | .vstr s =>
      match tl.parseIso s with
      | some ms => .vnum (Int.ediv ms 1000)
      | none => .vnum (-62135596800)
    | .vnum n => .vnum (Int.ediv n 1000 + (if Int.emod n 1000 = 0 then 0 else 1))
    | _ => value
  else if field.core.isoDates then
    match value with
    | .vstr s =>
      match tl.parseIso s with
      | some ms => .vstr (tl.fmtIso ms)
      | none => value
    | .vnum n => .vstr (tl.fmtIso n)
    | _ => value
  else
    match value with
    | .vstr s =>
      match tl.parseIso s with
      | some ms => .vnum ms
      | none =>
        match parseGoNum s.data with
        | some ms => .vnum ms
        | none => value
    | _ => value

/-- Go `Model.transformWriteAttribute` (model.go 1369-1432).  The nested
compound-value converters only rewrite `time.Time` values and are identities
on the embedded universe; the binary family has no `[]byte` representative;
`ParseFloat` is restricted to the integer number universe. -/
def transformWriteAttribute (tl : TimeLib) (m : ModelL) (field : PField) (value : Value) :
    Except ErrL Value :=
  if value.isNil ∧ field.core.nulls then .ok .vnull
  else
    let cryptFall : Value → Except ErrL Value := fun v =>
      if field.core.fdef.crypt ∧ ¬ v.isNil then
        match v with
        | .vstr s => .ok (.vstr (m.encrypt s))
        | _ => .ok v
      else .ok v
    match field.core.ftype with
    | .tdate =>
      if ¬ value.isNil then .ok (transformWriteDate tl field value) else cryptFall value
    | .tnumber =>
      match value with
      | .vnum _ => .ok value
      | .vstr s =>
        match parseGoNum s.data with
        | some f => .ok (.vnum f)
        | none =>
          .error { kind := .panicE, viaPanic := true
                   msg := "invalid number value \"" ++ s ++ "\" for field " ++ field.core.name }
      | _ => cryptFall value
    | .tboolean =>
      match value with
      | .vbool _ => .ok value
      | .vstr s => .ok (.vbool (s ≠ "false" ∧ s ≠ "null" ∧ s ≠ "undefined" ∧ s ≠ ""))
      | _ => .ok (.vbool (¬ value.isNil))
    | .tstring =>
      if ¬ value.isNil then
        match value with
        | .vmap _ => .ok value
        | _ => .ok (.vstr (showValue value))
      else cryptFall value
    | .tarray =>
      match value with
      | .vlist _ => .ok value
      | _ => cryptFall value
    | .tobject =>
      match value with
      | .vmap _ => .ok value
      | _ => cryptFall value
    | _ => cryptFall value

/-- Go `Model.transformProperties` (model.go 1356-1367). -/
def transformProperties (tl : TimeLib) (m : ModelL) (rec : Item) :
    List (String × PField) → Except ErrL Item
  | [] => .ok rec
  | (name, field) :: rest =>
    if field.hasBlock then transformProperties tl m rec rest
    else
      match itemGet? rec name with
      | none => transformProperties tl m rec rest
      | some v =>
        match transformWriteAttribute tl m field v with
        | .error err => .error err
        | .ok v2 => transformProperties tl m (itemSet rec name v2) rest

mutual

/-- Go `Model.collectProperties` (model.go 925-958): one schema level of the
property-preparation pipeline; returns the prepared record, the (mutated)
property map and the (mutated) params.  `isTop` models the source's
`block == &m.block` pointer comparison. -/
def collectProperties (rx : RegexLib) (tl : TimeLib) (m : ModelL) (op pathname : String)
    (isTop : Bool) (fields : List (String × PField)) (deps : List PField)
    (index : IndexDefL) (properties : Item) (params : ParamsL) (context : Option Item) :
    Except ErrL (Item × Item × ParamsL) :=
  let ctx := match context with | some c => c | none => m.tableContext
  let nestedStep : Except ErrL (Item × Item × ParamsL) :=
    if m.nested ∧ ¬ keysOnlyOp op then
      collectNested rx tl m op pathname index ctx properties params [] fields
    else .ok ([], properties, params)
  match nestedStep with
  | .error err => .error err
  | .ok (rec0, props0, params0) =>
    let props1 := addContext m op fields index props0 ctx
    let props2 := setDefaults m op fields props1 params0
    match runTemplates op index deps props2 with
    | .error err => .error err
    | .ok props3 =>
      let (props4, params1) := convertNulls pathname fields props3 params0
      match validateProperties rx m op fields props4 with
      | .error err => .error err
      | .ok _ =>
        let (rec1, params2) := selectProperties m op isTop fields index props4 params1 rec0
        match transformProperties tl m rec1 fields with
        | .error err => .error err
        | .ok rec2 => .ok (rec2, props4, params2)
  termination_by (sizeOf fields, 1, 0)

/-- Go `Model.collectNested` (model.go 960-1022): recurse into nested object
and array fields before the top-level steps run. -/
def collectNested (rx : RegexLib) (tl : TimeLib) (m : ModelL) (op pathname : String)
    (index : IndexDefL) (ctx : Item) (properties : Item) (params : ParamsL) (rec : Item) :
    List (String × PField) → Except ErrL (Item × Item × ParamsL)
  | [] => .ok (rec, properties, params)
  | (_, field) :: rest =>
    if ¬ field.hasBlock then
      collectNested rx tl m op pathname index ctx properties params rec rest
    else
      let name := field.core.name
      let value0 := goGet properties name
      let value1 :=
        if op = "put" ∧ value0.isNil then
          if field.core.required then
            (if field.core.isArray then Value.vlist [] else Value.vmap [])
          else
            match field.core.fdef.dflt with
            | some d => d
            | none => value0
        else value0
      let ctx2 : Option Item := match goGet ctx name with | .vmap mm => some mm | _ => none
      let isPart := getPartFlag m field params
      if value1.isNil then
        collectNested rx tl m op pathname index ctx properties params rec rest
      else if field.core.isArray then
        match value1 with
        | .vlist arr =>
          match collectNestedArr rx tl m op pathname field name ctx2 isPart index params 0 arr with
          | .error err => .error err
          | .ok (result, params2) =>
            collectNested rx tl m op pathname index ctx properties params2
              (itemSet rec name (.vlist result)) rest
        | _ => collectNested rx tl m op pathname index ctx properties params rec rest
      else
        let valMap := match value1 with | .vmap mm => mm | _ => ([] : Item)
        let path := if pathname ≠ "" then pathname ++ "." ++ name else name
        match collectProperties rx tl m op path false field.blockFields field.blockDeps
            index valMap params ctx2 with
        | .error err => .error err
        | .ok (obj, _, params2) =>
          if ¬ isPart ∨ obj.length > 0 ∨ field.core.fdef.dflt.isSome then
            collectNested rx tl m op pathname index ctx properties params2
              (itemSet rec name (.vmap obj)) rest
          else
            collectNested rx tl m op pathname index ctx properties params2 rec rest
  termination_by flds => (sizeOf flds, 0, 0)
  decreasing_by
    all_goals first
      | decreasing_tactic
      | (try simp_wf
         apply Prod.Lex.left
         try simp only [List.cons.sizeOf_spec, Prod.mk.sizeOf_spec]
         have hb := blockFields_sizeOf field
         omega)

/-- The per-element loop of the array branch of Go `Model.collectNested`; the
element index forms the dotted-and-subscripted remove path.  A non-map
element hands Go a nil map, whose nested type-field assignment would panic
at runtime; the embedding passes an empty map. -/
def collectNestedArr (rx : RegexLib) (tl : TimeLib) (m : ModelL) (op pathname : String)
    (field : PField) (name : String) (ctx2 : Option Item) (isPart : Bool)
    (index : IndexDefL) (params : ParamsL) (i : Nat) :
    List Value → Except ErrL (List Value × ParamsL)
  | [] => .ok ([], params)
  | elem :: restArr =>
    let path0 := name ++ "[" ++ toString i ++ "]"
    let path := if pathname ≠ "" then pathname ++ "." ++ path0 else path0
    let elemMap := match elem with | .vmap mm => mm | _ => ([] : Item)
    match collectProperties rx tl m op path false field.blockFields field.blockDeps
        index elemMap params ctx2 with
    | .error err => .error err
    | .ok (obj, _, params2) =>
      match collectNestedArr rx tl m op pathname field name ctx2 isPart index params2
          (i + 1) restArr with
      | .error err => .error err
      | .ok (restResult, params3) =>
        if ¬ isPart ∨ obj.length > 0 ∨ field.core.fdef.dflt.isSome then
          .ok (.vmap obj :: restResult, params3)
        else .ok (restResult, params3)
  termination_by arr => (sizeOf field, 2, arr.length)
  decreasing_by
    all_goals first
      | decreasing_tactic
      | (try simp_wf
         apply Prod.Lex.left
         have hb := blockFields_sizeOf field
         omega)

end

/-- Go `Model.prepareProperties` (model.go 896-922): fallback detection,
property collection and the hash-presence check for non-scan operations. -/
def prepareProperties (rx : RegexLib) (tl : TimeLib) (m : ModelL) (op : String)
    (properties : Item) (params0 : ParamsL) : Except ErrL (Item × ParamsL) :=
  let params := { params0 with fback := false }
  match selectIndex m params with
  | none => .error { kind := .panicE, msg := "nil index", viaPanic := true }
  | some index =>
    if needsFallback m op params then
      .ok (properties, { params with fback := true })
    else
      match collectProperties rx tl m op "" true m.fields m.deps index properties params none with
      | .error err => .error err
      | .ok (rec, _, params2) =>
        if params2.fback then .ok (properties, params2)
        else if op ≠ "scan" ∧ (getHashValue m rec m.fields index).isNil then
          .error { kind := .missing
                   msg := "Cannot " ++ op ++ " data for \"" ++ m.name ++
                     "\". Missing data index key." }
        else .ok (rec, params2)

/-! Operation runner (model.go): pagination, transactions, unique protocol. -/

/-- Go `sanityPages` (model.go 23). -/
def sanityPages : Nat := 1000

/-- One backend page for a find/scan call (`Items`, `Count`,
`LastEvaluatedKey` of the normalised execute result). -/
structure PageRes where
  items : List Item := []
  countN : Nat := 0
  lastKey : Option Item := none

/-- Accumulated state of the Go `runMulti` pagination loop, plus which break
condition(s) ended it. -/
structure MultiAcc where
  rawItems : List Item := []
  totalCount : Nat := 0
  lastKey : Option Item := none
  calls : Nat := 0
  stoppedByLimit : Bool := false
  stoppedNoMore : Bool := false
  stoppedByPages : Bool := false

/-- The `for` loop of Go `Model.runMulti` (model.go 582-623); the backend is
an oracle from the call number to its page.  The loop breaks when the
per-request limit is reached, the backend returns no continuation token, or
the page counter reaches `maxPages`. -/
def runMultiLoop (oracle : Nat → PageRes) (limit maxPages : Nat) (pages : Nat)
    (acc : MultiAcc) : MultiAcc :=
  let result := oracle acc.calls
  let raw := acc.rawItems ++ result.items
  let cnt := acc.totalCount + result.countN
  let hasMore := result.lastKey.isSome
  let lk := match result.lastKey with | some k => some k | none => acc.lastKey
  let acc2 : MultiAcc :=
    { acc with rawItems := raw, totalCount := cnt, lastKey := lk, calls := acc.calls + 1 }
  if limit > 0 ∧ raw.length ≥ limit then { acc2 with stoppedByLimit := true }
  else
    let pages2 := pages + 1
    if ¬ hasMore ∨ pages2 ≥ maxPages then
      { acc2 with stoppedNoMore := !hasMore, stoppedByPages := decide (pages2 ≥ maxPages) }
    else runMultiLoop oracle limit maxPages pages2 acc2
  termination_by maxPages - pages
  decreasing_by
    simp_all
    omega

/-- The pagination part of Go `Model.runMulti` (model.go 560-623): the page
cap is `MaxPages` when supplied, `sanityPages` otherwise. -/
def runMultiPages (oracle : Nat → PageRes) (params : ParamsL) : MultiAcc :=
  let maxPages := if params.maxPages = 0 then sanityPages else params.maxPages
  runMultiLoop oracle params.limit maxPages 0 {}

/-- Is a leading chunk of the other list? -/
def leadsWith : List Char → List Char → Bool
  | [], _ => true
  | _ :: _, [] => false
  | a :: as2, b :: bs => a == b && leadsWith as2 bs

/-- Substring search (Go `strings.Contains`). -/
def containsSub (needle : List Char) : List Char → Bool
  | [] => needle.isEmpty
  | c :: rest => leadsWith needle (c :: rest) || containsSub needle rest

/-- Go `strings.Contains(hay, needle)`. -/
def strContains (hay needle : String) : Bool :=
  containsSub needle.data hay.data

/-- Go `isConditionalFailed` (model.go 2128-2145) on an error message. -/
def isConditionalFailed (msg : String) : Bool :=
  strContains msg "ConditionalCheckFailed" ||
  strContains msg "TransactionCanceledException" ||
  strContains msg "Transaction Cancelled"

/-- An accumulating write transaction (`params.Transaction`): the
`timestamp` entry presence and the `TransactItems` list of capitalised
operation / command pairs. -/
structure TxnL where
  hasTimestamp : Bool := false
  items : List (String × CommandL) := []

/-- Go `Model.putItem` (model.go 349-382) under an active transaction with
`Execute` unset and no batch: timestamps (the shared transaction `now`
modelled by `nowV`), preparation, expression build and the
`accumulateTransaction` append of `\x7bPut: cmd\x7d` (model.go 1811-1825). -/
def putItemTxn (rx : RegexLib) (tl : TimeLib) (m : ModelL) (nowV : Value)
    (properties : Item) (params : ParamsL) (txn : TxnL) :
    Except ErrL (Item × ParamsL × TxnL) :=
  let step : Except ErrL (Item × ParamsL) :=
    if ¬ params.prepared then
      let p1 := if m.timestamps.creates then itemSet properties m.createdField nowV else properties
      let p2 := if m.timestamps.updates then itemSet p1 m.updatedField nowV else p1
      prepareProperties rx tl m "put" p2 params
    else .ok (properties, params)
  match step with
  | .error err => .error err
  | .ok (prepared, params2) =>
    match newExpression m "put" prepared params2 with
    | .error err => .error err
    | .ok (cx, e) =>
      match command cx e with
      | .error err => .error err
      | .ok cmd => .ok (prepared, params2, { txn with items := txn.items ++ [("Put", cmd)] })

/-- The Go `_Unique` model as `schemaManager.createUniqueModel`
(schema_manager.go 120-141) plus `prepModel` prepare it: the primary key
fields (indexed, required), the injected required hidden type field and the
timestamp fields when the table policy demands them.  Key types default to
string as in the source when `keyTypes` has no entry. -/
def mkUniqueModel (m : ModelL) (primary : IndexDefL) : ModelL :=
  let keyF : String → (String × PField) := fun att =>
    (att, PField.mk
      { name := att, attPath := [att], fdef := {}, ftype := .tstring
        isIndexed := true, required := true, nulls := m.nullsT, isoDates := m.isoDates }
      [] [] false)
  let tf : String × PField :=
    (m.typeField, PField.mk
      { name := m.typeField, attPath := [m.typeField]
        fdef := { required := true }, ftype := .tstring, hidden := true, required := true
        nulls := m.nullsT, isoDates := m.isoDates }
      [] [] false)
  let tsF : String → (String × PField) := fun att =>
    (att, PField.mk
      { name := att, attPath := [att], fdef := {}, ftype := .tdate
        nulls := m.nullsT, isoDates := m.isoDates }
      [] [] false)
  let fieldsList :=
    [keyF primary.hash] ++
    (if primary.sort ≠ "" then [keyF primary.sort] else []) ++
    [tf] ++
    (if m.timestamps.creates then [tsF m.createdField] else []) ++
    (if m.timestamps.updates then [tsF m.updatedField] else [])
  { name := "_Unique", typeField := m.typeField, createdField := m.createdField
    updatedField := m.updatedField, tableName := m.tableName
    generic := false, nested := false, partFlag := m.partFlag, isoDates := m.isoDates
    nullsT := m.nullsT, timestamps := m.timestamps
    fields := fieldsList, deps := fieldsList.map Prod.snd
    indexes := m.indexes, mappings := [], hasUniqueFields := false
    tableContext := m.tableContext, generate := m.generate, encrypt := m.encrypt
    hasClient := m.hasClient, metricsOn := m.metricsOn }

/-- Go `uniqueModel.Create` as called from the unique protocol (model.go
1547): `checkArgs` merges `\x7bParse, High, Exists:false\x7d` with the
caller's `\x7bTransaction, Exists:false, Return:"NONE"\x7d`; the unique model
has no unique fields, so `putItem` accumulates the sentinel put. -/
def uniqueCreateTxn (rx : RegexLib) (tl : TimeLib) (um : ModelL) (nowV : Value)
    (up : Item) (txn : TxnL) : Except ErrL TxnL :=
  let params : ParamsL :=
    { parse := true, high := true, existsQ := some false, ret := some (.rstr "NONE")
      txnOn := true, txnHasTs := txn.hasTimestamp, checked := true }
  match putItemTxn rx tl um nowV up params txn with
  | .error err => .error err
  | .ok (_, _, txn2) => .ok txn2

/-- The unique-field collection of Go `Model.createUnique` (model.go
1535-1540): unique fields whose attribute is not a primary key attribute. -/
def uniqueFieldsOf (m : ModelL) (primary : IndexDefL) : List PField :=
  (m.fields.map Prod.snd).filter
    (fun f => f.core.fdef.unique && f.att0 != primary.hash && f.att0 != primary.sort)

/-- The sentinel loop of Go `Model.createUnique` (model.go 1542-1552): for
each unique field with a non-nil prepared value, enqueue a sentinel put with
primary key `(_unique#Model#attr#value, _unique#)`. -/
def createUniqueSentinels (rx : RegexLib) (tl : TimeLib) (um : ModelL) (modelName : String)
    (primary : IndexDefL) (nowV : Value) (prepared : Item) (txn : TxnL) :
    List PField → Except ErrL TxnL
  | [] => .ok txn
  | field :: rest =>
    match itemGet? prepared field.core.name with
    | some v =>
      if ¬ v.isNil then
        let pk := "_unique#" ++ modelName ++ "#" ++ field.att0 ++ "#" ++ showValue v
        let up : Item := [(primary.hash, .vstr pk), (primary.sort, .vstr "_unique#")]
        match uniqueCreateTxn rx tl um nowV up txn with
        | .error err => .error err
        | .ok txn2 =>
          createUniqueSentinels rx tl um modelName primary nowV prepared txn2 rest
      else createUniqueSentinels rx tl um modelName primary nowV prepared txn rest
    | none => createUniqueSentinels rx tl um modelName primary nowV prepared txn rest

/-- Outcome of Go `Model.createUnique` (model.go 1509-1582): the prepared
item, the final transaction and whether this call opened (and therefore
committed) the transaction. -/
structure CreateUniqueRes where
  item : Item
  txn : TxnL
  committedHere : Bool

/-- Go `Model.createUnique` (model.go 1509-1582).  `txnIn` is the caller's
transaction (`none` means createUnique opens one and commits it);
`commitErr` is the outcome of the `table.Transact` commit (the message of
the Go error, `none` for success): a conditional failure is rewritten into a
`Unique` error naming every unique field. -/
def createUnique (rx : RegexLib) (tl : TimeLib) (m : ModelL) (nowV : Value)
    (properties : Item) (params0 : ParamsL) (txnIn : Option TxnL)
    (commitErr : Option String) : Except ErrL CreateUniqueRes :=
  let transactHere := txnIn.isNone
  let txn0 : TxnL := { txnIn.getD {} with hasTimestamp := true }
  let p1 := if m.timestamps.creates then itemSet properties m.createdField nowV else properties
  let p2 := if m.timestamps.updates then itemSet p1 m.updatedField nowV else p1
  let params := { params0 with txnOn := true, txnHasTs := true }
  match prepareProperties rx tl m "put" p2 params with
  | .error err => .error err
  | .ok (prepared, params1) =>
    let params2 := { params1 with prepared := true }
    match lookupStr m.indexes "primary" with
    | none => .error { kind := .panicE, msg := "nil index", viaPanic := true }
    | some primary =>
      let um := mkUniqueModel m primary
      let uniques := uniqueFieldsOf m primary
      match createUniqueSentinels rx tl um m.name primary nowV prepared txn0 uniques with
      | .error err => .error err
      | .ok txn1 =>
        match putItemTxn rx tl m nowV prepared params2 txn1 with
        | .error err => .error err
        | .ok (_, _, txn2) =>
          if ¬ transactHere then
            .ok { item := prepared, txn := txn2, committedHere := false }
          else
            match commitErr with
            | some msg =>
              if isConditionalFailed msg then
                .error { kind := .uniqueE
                         msg := "Cannot create unique attributes \"" ++
                           joinStrs ", " (uniques.map (fun f => f.core.name)) ++
                           "\" for \"" ++ m.name ++
                           "\". An item of the same name already exists." }
              else .error { kind := .runtimeE, msg := msg }
            | none => .ok { item := prepared, txn := txn2, committedHere := true }

/-! The checkArgs cloning discipline (model.go 1879-2005), modelled on an
explicit heap of property maps so that Go reference aliasing is visible. -/

/-- A heap of property maps; a reference is an index. -/
abbrev Heap := List Item

/-- Dereference (out-of-range reads give the empty map). -/
def heapGet (h : Heap) (r : Nat) : Item :=
  List.getD h r []

/-- In-place update of the map a reference points to. -/
def heapSet (h : Heap) (r : Nat) (it : Item) : Heap :=
  List.set h r it

/-- The clone step of Go `Model.checkArgs` (model.go 1999-2004): allocate a
fresh map holding a shallow copy of the caller's top-level entries and hand
back its reference. -/
def checkArgsClone (h : Heap) (r : Nat) : Heap × Nat :=
  (h ++ [heapGet h r], List.length h)

/-- One top-level property-map mutation as the preparation pipeline performs
them after checkArgs (`properties[k] = v` in addContext / setDefaults /
runTemplates / putItem timestamping, `delete(properties, k)` in
convertNulls). -/
inductive EditL where
  | setE (k : String) (v : Value)
  | delE (k : String)

def applyEdit (it : Item) : EditL → Item
  | .setE k v => itemSet it k v
  | .delE k => itemErase it k

/-- Performs a sequence of top-level mutations on the map at `r`. -/
def applyEditsAt (h : Heap) (r : Nat) : List EditL → Heap
  | [] => h
  | ed :: rest => applyEditsAt (heapSet h r (applyEdit (heapGet h r) ed)) r rest

/-! Claim-level predicates. -/

/-- The attribute-name placeholder indices a token string references. -/
def tokNRefs : TokStr → List Nat
  | [] => []
  | .nref i :: rest => i :: tokNRefs rest
  | _ :: rest => tokNRefs rest

/-- The value placeholder indices a token string references. -/
def tokVRefs : TokStr → List Nat
  | [] => []
  | .vref j :: rest => j :: tokVRefs rest
  | _ :: rest => tokVRefs rest

/-- Every expression string a command envelope emits. -/
def cmdExprs (c : CommandL) : List TokStr :=
  c.conditionExpr.toList ++ c.filterExpr.toList ++ c.keyCondExpr.toList ++
  c.projExpr.toList ++ c.updateExpr.toList

/-- Does the table carry the key? -/
def keyInTable {α : Type} (tbl : List (String × α)) (k : String) : Bool :=
  (lookupStr tbl k).isSome

/-- Claim C2 as stated, evaluated on one command envelope: every referenced
`#_N` has an entry in the emitted names table, every `:_N` an entry in the
emitted values table, and the emitted tables hold no unreferenced entries. -/
def claimC2 (c : CommandL) : Bool :=
  ((cmdExprs c).all fun ts =>
    (tokNRefs ts).all (fun i => keyInTable (c.eans.getD []) ("#_" ++ toString i)) &&
    (tokVRefs ts).all (fun j => keyInTable (c.eavs.getD []) (":_" ++ toString j))) &&
  ((c.eans.getD []).all fun kv =>
    (cmdExprs c).any fun ts => (tokNRefs ts).any fun i => ("#_" ++ toString i) == kv.1) &&
  ((c.eavs.getD []).all fun kv =>
    (cmdExprs c).any fun ts => (tokVRefs ts).any fun j => (":_" ++ toString j) == kv.1)

/-- Modelled from the spec (claim C6 wording): does the regex check fail for
this pattern and value, accepting both `/pattern/flags` and bare forms?  The
non-string coercion to `""` follows the source's `s, _ := value.(string)`. -/
def specRegexFails (rx : RegexLib) (pat : String) (value : Value) : Bool :=
  let s := match value with | .vstr str => str | _ => ""
  if pat.data.headD ' ' = '/' then
    let last := lastIndexOfChar '/' pat.data
    if last > 0 then
      let flags := String.mk (pat.data.drop (last.toNat + 1))
      let inner0 := String.mk ((pat.data.drop 1).take (last.toNat - 1))
      let inner := if flags ≠ "" then "(?" ++ flags ++ ")" ++ inner0 else inner0
      match rx.rcompile inner with
      | some matcher => !(matcher s)
      | none => false
    else false
  else
    match rx.rcompile pat with
    | some matcher => !(matcher s)
    | none => false

/-- Modelled from the spec (claim C6 wording): is `name` an offending field
of this put/update — required missing on create, explicitly-null required on
update, regex mismatch, or case-sensitive enum mismatch? -/
def specOffends (rx : RegexLib) (op : String) (fields : List (String × PField))
    (properties : Item) (name : String) : Bool :=
  match lookupStr fields name with
  | none => false
  | some field =>
    if field.hasBlock then false
    else
      let present := itemGet? properties name
      let checkFail :=
        match present with
        | some v =>
          (if field.core.fdef.validate ≠ "" then specRegexFails rx field.core.fdef.validate v
           else false) ||
          (match field.core.fdef.enum with
           | some es => !(containsStr es (showValue v))
           | none => false)
        | none => false
      let requiredFail :=
        if field.core.required then
          match present with
          | none => op == "put"
          | some v => v.isNil && (op == "put" || op == "update")
        else false
      checkFail || requiredFail

/-- No expansion-triggering characters (`$`, `\x7b`, `@`): such a value is
registered directly by `prepareKeyValue` instead of being expanded. -/
def plainStr (s : String) : Bool :=
  !(s.data.any (fun c => c = '$' || c = lbrace || c = '@'))

def plainVal : Value → Bool
  | .vstr s => plainStr s
  | _ => true

/-- All update-clause parameter values are expansion-free, so the only
failure `addUpdateConditions` can raise is the primary-key argument error. -/
def updEntriesPlain (params : ParamsL) : Bool :=
  params.addP.all (fun kv => plainVal kv.2) &&
  params.deleteP.all (fun kv => plainVal kv.2) &&
  params.setP.all (fun kv => plainStr kv.2)

/-- Does any params-provided Add/Delete/Remove/Set/Push entry name the given
attribute pair (claim C7's offending-key condition)? -/
def updNamesKey (params : ParamsL) (hash sort : String) : Bool :=
  params.addP.any (fun kv => kv.1 == hash || kv.1 == sort) ||
  params.deleteP.any (fun kv => kv.1 == hash || kv.1 == sort) ||
  params.removeP.any (fun k => k == hash || k == sort) ||
  params.setP.any (fun kv => kv.1 == hash || kv.1 == sort) ||
  params.pushP.any (fun kv => kv.1 == hash || kv.1 == sort)

/-- The items of `n` consecutive backend pages starting at call number
`start` (what the pagination loop accumulates). -/
def oraclePages (oracle : Nat → PageRes) (start n : Nat) : List Item :=
  match n with
  | 0 => []
  | n + 1 => (oracle start).items ++ oraclePages oracle (start + 1) n

/-- The regex/enum failure `validateProperty` records for one present
property (its branch structure flattened to a Bool). -/
def checkFailB (rx : RegexLib) (field : PField) (value : Value) : Bool :=
  (if field.core.fdef.validate ≠ "" then
    specRegexFails rx field.core.fdef.validate value
   else false) ||
  (match field.core.fdef.enum with
   | some es => !(containsStr es (showValue value))
   | none => false)

/-- The required-field failure `validateRequired` records for one field. -/
def requiredFailB (op : String) (properties : Item) (field : PField) : Bool :=
  (field.core.required && !field.hasBlock) &&
  (match itemGet? properties field.core.name with
   | none => op == "put"
   | some v => v.isNil && (op == "put" || op == "update"))

/-- The command envelope of one unique sentinel put (what
`uniqueModel.Create` contributes to the transaction): the sentinel item with
the injected type field, guarded by `attribute_not_exists` on both primary
key attributes. -/
def sentinelCmd (tableName typeField : String) (primary : IndexDefL) (pk : String) : CommandL :=
  { tableName := tableName
    conditionExpr := some [Tok.lit "(", Tok.lit "attribute_not_exists(",
      Tok.nref 0, Tok.lit ")", Tok.lit ")", Tok.lit " and ", Tok.lit "(",
      Tok.lit "attribute_not_exists(", Tok.nref 1, Tok.lit ")", Tok.lit ")"]
    eans := some [("#_0", primary.hash), ("#_1", primary.sort)]
    itemI := some [(primary.hash, .vstr pk), (primary.sort, .vstr "_unique#"),
      (typeField, .vstr "_Unique")]
    returnValues := some "NONE" }

/-- The sentinel puts `createUnique` enqueues: one per unique field whose
prepared value is non-nil, keyed `_unique#<Model>#<attr>#<value>` /
`_unique#`. -/
def sentinelPuts (tableName typeField : String) (primary : IndexDefL) (nm : String)
    (prepared : Item) : List PField → List (String × CommandL)
  | [] => []
  | field :: rest =>
    match itemGet? prepared field.core.name with
    | some v =>
      if ¬ v.isNil then
        ("Put", sentinelCmd tableName typeField primary
            ("_unique#" ++ nm ++ "#" ++ field.att0 ++ "#" ++ showValue v)) ::
          sentinelPuts tableName typeField primary nm prepared rest
      else sentinelPuts tableName typeField primary nm prepared rest
    | none => sentinelPuts tableName typeField primary nm prepared rest

/-! ## Theorems -/

/-- C10: when `params.Index` names an index absent from the model's index
map, `selectIndex` silently resolves to the primary index (no error path
exists), and the expression context therefore carries the primary index's
hash and sort attributes. -/
theorem claim_C10 (m : ModelL) (op : String) (params : ParamsL) (primary : IndexDefL)
    (hprim : lookupStr m.indexes "primary" = some primary)
    (hmiss : lookupStr m.indexes params.index = none) :
    selectIndex m params = some primary ∧
    ∀ cx, initExpr m op params = .ok cx →
      cx.hash = primary.hash ∧ cx.sort = primary.sort := by
  have hname : selectIndexName m params = "primary" := by
    unfold selectIndexName
    by_cases h1 : params.index ≠ "" ∧ params.index ≠ "primary" ∧
        (lookupStr m.indexes params.index).isSome
    · exact absurd h1 (by simp [hmiss])
    · simp [h1]
  have hsel : selectIndex m params = some primary := by
    unfold selectIndex
    rw [hname, hprim]
  refine ⟨hsel, ?_⟩
  intro cx hcx
  unfold initExpr at hcx
  rw [hsel] at hcx
  by_cases hc : m.hasClient
  · simp [hc] at hcx
    subst hcx
    exact ⟨rfl, rfl⟩
  · simp [hc] at hcx

/-- Concrete instance of `claim_C10`: a model whose only index is the
primary one, queried with the nonexistent index name `gs9`. -/
theorem claim_C10_witness :
    (selectIndex
        { name := "W", typeField := "_type", tableName := "T"
          fields := [], deps := []
          indexes := [("primary", { hash := "pk", sort := "sk" })] }
        { index := "gs9" }) =
      some { hash := "pk", sort := "sk" } :=
  (claim_C10
    { name := "W", typeField := "_type", tableName := "T"
      fields := [], deps := []
      indexes := [("primary", { hash := "pk", sort := "sk" })] }
    "find" { index := "gs9" } { hash := "pk", sort := "sk" } rfl rfl).1

theorem runMultiLoop_spec (oracle : Nat → PageRes) (limit : Nat) :
    ∀ (k maxPages pages : Nat) (acc : MultiAcc), maxPages - pages ≤ k →
    pages < maxPages → acc.calls = pages →
    acc.stoppedByLimit = false → acc.stoppedNoMore = false → acc.stoppedByPages = false →
    (runMultiLoop oracle limit maxPages pages acc).calls ≤ maxPages ∧
    acc.calls < (runMultiLoop oracle limit maxPages pages acc).calls ∧
    (runMultiLoop oracle limit maxPages pages acc).rawItems =
      acc.rawItems ++ oraclePages oracle acc.calls
        ((runMultiLoop oracle limit maxPages pages acc).calls - acc.calls) ∧
    ((runMultiLoop oracle limit maxPages pages acc).stoppedByLimit = true ∨
     (runMultiLoop oracle limit maxPages pages acc).stoppedNoMore = true ∨
     (runMultiLoop oracle limit maxPages pages acc).stoppedByPages = true) ∧
    ((runMultiLoop oracle limit maxPages pages acc).stoppedByLimit = true →
      0 < limit ∧ limit ≤ (runMultiLoop oracle limit maxPages pages acc).rawItems.length) ∧
    ((runMultiLoop oracle limit maxPages pages acc).stoppedNoMore = true →
      (oracle ((runMultiLoop oracle limit maxPages pages acc).calls - 1)).lastKey = none) ∧
    ((runMultiLoop oracle limit maxPages pages acc).stoppedByPages = true →
      (runMultiLoop oracle limit maxPages pages acc).calls = maxPages) := by
  intro k
  induction k with
  | zero =>
    intro maxPages pages acc hk hlt
    exact ((by omega : False).elim)
  | succ k ih =>
    intro maxPages pages acc hk hlt hcalls hf1 hf2 hf3
    rw [runMultiLoop]
    simp only []
    split_ifs with hbreak1 hbreak2
    · refine ⟨?_, ?_, ?_, ?_, ?_, ?_, ?_⟩
      · simp
        omega
      · simp
      · simp [oraclePages]
      · left
        simp
      · intro _
        simpa using hbreak1
      · intro hcon
        simp [hf2] at hcon
      · intro hcon
        simp [hf3] at hcon
    · refine ⟨?_, ?_, ?_, ?_, ?_, ?_, ?_⟩
      · simp
        omega
      · simp
      · simp [oraclePages]
      · rcases hbreak2 with h | h
        · right; left
          simp [Bool.not_eq_true] at h
          simp [h]
        · right; right
          simp
          omega
      · intro hcon
        simp [hf1] at hcon
      · intro hcon
        simp at hcon ⊢
        simpa [Option.isSome] using hcon
      · intro hcon
        simp at hcon ⊢
        omega
    · push_neg at hbreak2
      have hfuel : maxPages - (pages + 1) ≤ k := by omega
      have hlt2 : pages + 1 < maxPages := by omega
      have big := ih maxPages (pages + 1)
        { rawItems := acc.rawItems ++ (oracle acc.calls).items
          totalCount := acc.totalCount + (oracle acc.calls).countN
          lastKey := match (oracle acc.calls).lastKey with
            | some kk => some kk
            | none => acc.lastKey
          calls := acc.calls + 1
          stoppedByLimit := acc.stoppedByLimit
          stoppedNoMore := acc.stoppedNoMore
          stoppedByPages := acc.stoppedByPages }
        hfuel hlt2 (by simp [hcalls]) hf1 hf2 hf3
      obtain ⟨ha, hb, hc, hd, he, hg, hh⟩ := big
      refine ⟨ha, ?_, ?_, hd, he, hg, hh⟩
      · try simp at hb
        omega
      · rw [hc]
        simp only [List.append_assoc]
        congr 1
        try simp at hb
        have hsub : (runMultiLoop oracle limit maxPages (pages + 1)
            { rawItems := acc.rawItems ++ (oracle acc.calls).items
              totalCount := acc.totalCount + (oracle acc.calls).countN
              lastKey := match (oracle acc.calls).lastKey with
                | some kk => some kk
                | none => acc.lastKey
              calls := acc.calls + 1
              stoppedByLimit := acc.stoppedByLimit
              stoppedNoMore := acc.stoppedNoMore
              stoppedByPages := acc.stoppedByPages }).calls - acc.calls =
            ((runMultiLoop oracle limit maxPages (pages + 1)
            { rawItems := acc.rawItems ++ (oracle acc.calls).items
              totalCount := acc.totalCount + (oracle acc.calls).countN
              lastKey := match (oracle acc.calls).lastKey with
                | some kk => some kk
                | none => acc.lastKey
              calls := acc.calls + 1
              stoppedByLimit := acc.stoppedByLimit
              stoppedNoMore := acc.stoppedNoMore
              stoppedByPages := acc.stoppedByPages }).calls - (acc.calls + 1)) + 1 := by
          omega
        rw [hsub, oraclePages]

/-- C8: the find/scan pagination loop performs at least one backend call,
accumulates exactly the items of the pages it fetched, stops only because
the per-request limit was reached, the backend returned no continuation
token, or the page cap was hit, and never exceeds the cap — `MaxPages` when
supplied and the sanity cap of 1000 otherwise — so the number of backend
calls is always bounded. -/
theorem claim_C8 (oracle : Nat → PageRes) (params : ParamsL) :
    1 ≤ (runMultiPages oracle params).calls ∧
    (runMultiPages oracle params).calls ≤
      (if params.maxPages = 0 then sanityPages else params.maxPages) ∧
    (runMultiPages oracle params).rawItems =
      oraclePages oracle 0 (runMultiPages oracle params).calls ∧
    ((runMultiPages oracle params).stoppedByLimit = true ∨
     (runMultiPages oracle params).stoppedNoMore = true ∨
     (runMultiPages oracle params).stoppedByPages = true) ∧
    ((runMultiPages oracle params).stoppedByLimit = true →
      0 < params.limit ∧ params.limit ≤ (runMultiPages oracle params).rawItems.length) ∧
    ((runMultiPages oracle params).stoppedNoMore = true →
      (oracle ((runMultiPages oracle params).calls - 1)).lastKey = none) ∧
    ((runMultiPages oracle params).stoppedByPages = true →
      (runMultiPages oracle params).calls =
        (if params.maxPages = 0 then sanityPages else params.maxPages)) := by
  have hmax : 0 < (if params.maxPages = 0 then sanityPages else params.maxPages) := by
    by_cases h : params.maxPages = 0
    · simp [h, sanityPages]
    · simp [h]
      omega
  have spec := runMultiLoop_spec oracle params.limit
    (if params.maxPages = 0 then sanityPages else params.maxPages)
    (if params.maxPages = 0 then sanityPages else params.maxPages) 0 {}
    (by omega) hmax rfl rfl rfl rfl
  obtain ⟨ha, hb, hc, hd, he, hg, hh⟩ := spec
  simp only [runMultiPages]
  refine ⟨?_, ha, ?_, hd, he, hg, hh⟩
  · try simp at hb
    omega
  · simpa using hc

/-- Concrete instance of `claim_C8`: a backend that always hands back one
item and a continuation token, driven with `MaxPages = 3`, makes exactly
three calls and stops at the page cap. -/
theorem claim_C8_witness :
    1 ≤ (runMultiPages (fun _ => { items := [[("pk", Value.vstr "a")]], lastKey := some [] })
          { maxPages := 3 }).calls ∧
    (runMultiPages (fun _ => { items := [[("pk", Value.vstr "a")]], lastKey := some [] })
          { maxPages := 3 }).calls ≤ 3 :=
  let orc : Nat → PageRes := fun _ => { items := [[("pk", Value.vstr "a")]], lastKey := some [] }
  ⟨(claim_C8 orc { maxPages := 3 }).1, by
    have h := (claim_C8 orc { maxPages := 3 }).2.1
    simpa using h⟩


/-- C4 counterexample: a nil value is not a map, list or number and its
string form (`<nil>`) equals that of an already-added nil value, yet
`addValue` hands out a fresh index instead of reusing the existing one —
the claim's deduplication sentence fails at nil. -/
theorem claim_C4_counterexample :
    Value.vnull.noDedup = false ∧
    showValue Value.vnull = showValue Value.vnull ∧
    (addValue (addValue {} .vnull).2 .vnull).1 ≠ (addValue {} .vnull).1 := by
  refine ⟨rfl, rfl, ?_⟩
  decide

theorem lookupStr_append_self {α : Type} (l : List (String × α)) (k : String) (v : α)
    (h : lookupStr l k = none) : lookupStr (l ++ [(k, v)]) k = some v := by
  induction l with
  | nil => simp [lookupStr]
  | cons p rest ih =>
    obtain ⟨k2, v2⟩ := p
    by_cases hk : k2 = k
    · simp [lookupStr, hk] at h
    · simp [lookupStr, hk] at h ⊢
      exact ih h

/-- C4 (amended): within one command, two references to the same attribute
name share one `#_N` index; a value that is neither nil nor a map, list or
number reuses the `:_N` index of an earlier such value with the same string
form; maps, lists, numbers and nil always receive a fresh `:_N` index and
are not recorded for deduplication; name and value indices grow
monotonically. -/
theorem claim_C4_amended (e : ExprState) (v : Value) (name : String) :
    (∀ i, lookupStr e.namesMap name = some i → addName e name = (i, e)) ∧
    (lookupStr e.namesMap name = none →
      (addName e name).1 = e.nindex ∧ (addName e name).2.nindex = e.nindex + 1 ∧
      lookupStr (addName e name).2.namesMap name = some e.nindex) ∧
    ((v.isNil || v.noDedup) = true →
      (addValue e v).1 = e.vindex ∧ (addValue e v).2.vindex = e.vindex + 1 ∧
      (addValue e v).2.valuesMap = e.valuesMap) ∧
    ((v.isNil || v.noDedup) = false →
      (∀ j, lookupStr e.valuesMap (showValue v) = some j → addValue e v = (j, e)) ∧
      (lookupStr e.valuesMap (showValue v) = none →
        (addValue e v).1 = e.vindex ∧ (addValue e v).2.vindex = e.vindex + 1 ∧
        lookupStr (addValue e v).2.valuesMap (showValue v) = some e.vindex)) ∧
    e.nindex ≤ (addName e name).2.nindex ∧
    e.vindex ≤ (addValue e v).2.vindex := by
  refine ⟨?_, ?_, ?_, ?_, ?_, ?_⟩
  · intro i hi
    simp [addName, hi]
  · intro hnone
    refine ⟨?_, ?_, ?_⟩ <;> simp [addName, hnone, lookupStr_append_self]
  · intro hyes
    refine ⟨?_, ?_, ?_⟩ <;> simp [addValue, hyes]
  · intro hno
    constructor
    · intro j hj
      simp [addValue, hno, hj]
    · intro hnone
      refine ⟨?_, ?_, ?_⟩ <;> simp [addValue, hno, hnone, lookupStr_append_self]
  · unfold addName
    cases h : lookupStr e.namesMap name <;> simp
  · unfold addValue
    by_cases hb : (v.isNil || v.noDedup) = true
    · simp [hb]
    · simp only [Bool.not_eq_true] at hb
      simp only [hb]
      cases h : lookupStr e.valuesMap (showValue v) <;> simp

/-- Concrete instance of `claim_C4_amended`: the first reference to a fresh
attribute name receives index 0. -/
theorem claim_C4_witness :
    (addName ({} : ExprState) "pk").1 = 0 :=
  ((claim_C4_amended {} (.vstr "x") "pk").2.1 rfl).1


theorem addName_keys (e : ExprState) (n : String) : (addName e n).2.keys = e.keys := by
  unfold addName
  cases lookupStr e.namesMap n <;> rfl

theorem addValue_keys (e : ExprState) (v : Value) : (addValue e v).2.keys = e.keys := by
  unfold addValue
  by_cases h : (v.isNil || v.noDedup) = true
  · simp [h]
  · simp only [Bool.not_eq_true] at h
    simp only [h]
    cases lookupStr e.valuesMap (showValue v) <;> simp

/-- C5: template evaluation never returns an error; when an unresolved token
remains after substitution, a find whose field is the active index's sort
attribute and whose resolved text before the first unresolved token is
non-empty yields a begins-with operator map on that prefix (which `addKey`
turns into a `begins_with` key condition); in every other case the result is
discarded (`runTemplate` yields nothing and `runTemplates` adds no
property). -/
theorem claim_C5 (op : String) (index : IndexDefL) (field : PField)
    (properties : Item) (tmpl : String) :
    (∃ r, runTemplate op (some index) field properties tmpl = .ok r) ∧
    (containsDB (tmplScan properties tmpl.data).data = true →
      ((field.att0 = index.sort ∧ op = "find" ∧
          String.mk (takeUntilDB (tmplScan properties tmpl.data).data) ≠ "" →
        runTemplate op (some index) field properties tmpl =
          .ok (some (.vmap [("begins",
            .vstr (String.mk (takeUntilDB (tmplScan properties tmpl.data).data)))]))) ∧
       (¬ (field.att0 = index.sort ∧ op = "find" ∧
          String.mk (takeUntilDB (tmplScan properties tmpl.data).data) ≠ "") →
        runTemplate op (some index) field properties tmpl = .ok none))) ∧
    (runTemplate op (some index) field properties field.core.valueTemplate = .ok none →
      field.hasBlock = false →
      (field.core.isIndexed = true → op = "put" ∨ op = "update" ∨
        field.att0 = index.hash ∨ field.att0 = index.sort) →
      field.core.valueTemplate ≠ "" →
      itemHas properties field.core.name = false →
      runTemplates op index [field] properties = .ok properties) ∧
    (∀ (cx : ExprCtx) (e : ExprState) (p : String), cx.op = "find" →
      field.att0 = cx.sort →
      ∃ e2, addKey cx e field (.vmap [("begins", .vstr p)]) = .ok e2 ∧
        e2.keys = e.keys ++ [[Tok.lit "begins_with(",
          Tok.nref (addName e field.att0).1, Tok.lit ", ",
          Tok.vref (addValue (addName e field.att0).2 (.vstr p)).1, Tok.lit ")"]]) := by
  refine ⟨?_, ?_, ?_, ?_⟩
  · by_cases h1 : containsDB (tmplScan properties tmpl.data).data
    · by_cases h2 : field.att0 = index.sort ∧ op = "find"
      · by_cases h3 : String.mk (takeUntilDB (tmplScan properties tmpl.data).data) ≠ ""
        · refine ⟨some (.vmap [("begins",
            .vstr (String.mk (takeUntilDB (tmplScan properties tmpl.data).data)))]), ?_⟩
          unfold runTemplate
          simp [h1, h2.1, h2.2, h3]
        · refine ⟨none, ?_⟩
          unfold runTemplate
          simp [h1, h2.1, h2.2, h3]
      · refine ⟨none, ?_⟩
        unfold runTemplate
        rcases not_and_or.mp h2 with h | h <;> simp [h1, h]
    · refine ⟨some (.vstr (tmplScan properties tmpl.data)), ?_⟩
      unfold runTemplate
      simp [h1]
  · intro h1
    constructor
    · intro ⟨ha, hb, hc⟩
      unfold runTemplate
      simp [h1, ha, hb, hc]
    · intro hneg
      unfold runTemplate
      simp only [h1, if_pos]
      by_cases ha : field.att0 = index.sort
      · by_cases hb : op = "find"
        · have hc : ¬ String.mk (takeUntilDB (tmplScan properties tmpl.data).data) ≠ "" := by
            intro hc
            exact hneg ⟨ha, hb, hc⟩
          simp at hc
          simp [ha, hb, hc]
        · simp [hb]
      · simp [ha]
  · intro hnone hblk hidx htmpl hhas
    unfold runTemplates
    rw [if_neg (by simp [hblk])]
    have hguard : ¬ (field.core.isIndexed = true ∧ op ≠ "put" ∧ op ≠ "update" ∧
        field.att0 ≠ index.hash ∧ field.att0 ≠ index.sort) := by
      intro ⟨a, b, c, d, f⟩
      rcases hidx a with h | h | h | h
      · exact b h
      · exact c h
      · exact d h
      · exact f h
    rw [if_neg hguard]
    rw [if_neg (by simp [htmpl])]
    rw [if_neg (by simp [hhas])]
    rw [hnone]
    rfl
  · intro cx e p hop hsort
    refine ⟨{ (addValue (addName e field.att0).2 (.vstr p)).2 with
        keys := ((addValue (addName e field.att0).2 (.vstr p)).2).keys ++
          [[Tok.lit "begins_with(", Tok.nref (addName e field.att0).1, Tok.lit ", ",
            Tok.vref (addValue (addName e field.att0).2 (Value.vstr p)).1, Tok.lit ")"]] },
      ?_, ?_⟩
    · unfold addKey
      simp [hop, hsort.symm, addKeyFindMap, keyOperators, containsStr]
    · simp [addValue_keys, addName_keys]


/-- Concrete instance of `claim_C5` (fourth conjunct): on a find whose field
is the sort attribute, a begins operator map produces a `begins_with` key
condition. -/
theorem claim_C5_witness :
    ∃ e2, addKey
        { model := { name := "User", typeField := "_type", tableName := "T",
                     fields := [], deps := [], indexes := [] },
          op := "find", params := {}, index := { sort := "sk" },
          hash := "pk", sort := "sk", canPut := false, executeFlag := true,
          tableName := "T" }
        ({} : ExprState)
        (.mk { name := "sk", attPath := ["sk"], fdef := {} } [] [] false)
        (.vmap [("begins", .vstr "U#")]) = .ok e2 ∧
      e2.keys = ({} : ExprState).keys ++ [[Tok.lit "begins_with(",
        Tok.nref (addName {} "sk").1, Tok.lit ", ",
        Tok.vref (addValue (addName {} "sk").2 (.vstr "U#")).1, Tok.lit ")"]] :=
  (claim_C5 "find" { sort := "sk" }
      (.mk { name := "sk", attPath := ["sk"], fdef := {} } [] [] false)
      ([] : Item) "").2.2.2
    { model := { name := "User", typeField := "_type", tableName := "T",
                 fields := [], deps := [], indexes := [] },
      op := "find", params := {}, index := { sort := "sk" },
      hash := "pk", sort := "sk", canPut := false, executeFlag := true,
      tableName := "T" }
    {} "U#" rfl rfl

/-- C3: for a non-scan operation routed at the primary index (no fallback),
the prepared record always holds a value for the active index hash attribute:
a successful non-fallback preparation yields a record whose hash value is
non-nil, and when property collection leaves the hash attribute nil the
operation fails with a `Missing` error before any request is built. -/
theorem claim_C3 (rx : RegexLib) (tl : TimeLib) (m : ModelL) (op : String)
    (properties : Item) (params0 : ParamsL) (index : IndexDefL)
    (hop : op ≠ "scan")
    (hidx : selectIndex m { params0 with fback := false } = some index) :
    (∀ rec params2,
      prepareProperties rx tl m op properties params0 = .ok (rec, params2) →
      params2.fback = false →
      (getHashValue m rec m.fields index).isNil = false) ∧
    (∀ rec aux params2,
      needsFallback m op { params0 with fback := false } = false →
      collectProperties rx tl m op "" true m.fields m.deps index properties
        { params0 with fback := false } none = .ok (rec, aux, params2) →
      params2.fback = false →
      (getHashValue m rec m.fields index).isNil = true →
      prepareProperties rx tl m op properties params0 =
        .error { kind := .missing
                 msg := "Cannot " ++ op ++ " data for \"" ++ m.name ++
                   "\". Missing data index key." }) := by
  constructor
  · intro rec params2 hok hfb
    simp only [prepareProperties] at hok
    simp only [hidx] at hok
    by_cases hnf : needsFallback m op { params0 with fback := false } = true
    · rw [if_pos hnf] at hok
      simp only [Except.ok.injEq, Prod.mk.injEq] at hok
      rw [← hok.2] at hfb
      simp at hfb
    · rw [if_neg hnf] at hok
      cases hc : collectProperties rx tl m op "" true m.fields m.deps index properties
          { params0 with fback := false } none with
      | error e => simp only [hc] at hok; exact absurd hok (by simp)
      | ok t =>
        obtain ⟨rec1, aux1, p2⟩ := t
        simp only [hc] at hok
        by_cases hf2 : p2.fback = true
        · rw [if_pos hf2] at hok
          simp only [Except.ok.injEq, Prod.mk.injEq] at hok
          rw [← hok.2] at hfb
          rw [hf2] at hfb
          exact absurd hfb (by simp)
        · rw [if_neg hf2] at hok
          by_cases hnil : (getHashValue m rec1 m.fields index).isNil = true
          · rw [if_pos ⟨hop, hnil⟩] at hok
            exact absurd hok (by simp)
          · rw [if_neg (fun hh => hnil hh.2)] at hok
            simp only [Except.ok.injEq, Prod.mk.injEq] at hok
            rw [← hok.1]
            simp only [Bool.not_eq_true] at hnil
            exact hnil
  · intro rec aux params2 hnf hc hfb hnil
    simp only [prepareProperties, hidx]
    rw [if_neg (by simp [hnf])]
    simp only [hc]
    rw [if_neg (by simp [hfb])]
    rw [if_pos ⟨hop, hnil⟩]

/-- Concrete instance of `claim_C3`: a get on a generic model with no hash
property fails with the `Missing` error. -/
theorem claim_C3_witness :
    prepareProperties { rcompile := fun _ => none }
      { parseIso := fun _ => none, fmtIso := fun _ => "" }
      { name := "G", typeField := "_type", tableName := "T", generic := true,
        fields := [], deps := [], indexes := [("primary", { hash := "pk" })] }
      "get" ([] : Item) ({} : ParamsL) =
      .error { kind := .missing
               msg := "Cannot get data for \"G\". Missing data index key." } := by
  have hc : collectProperties { rcompile := fun _ => none }
      { parseIso := fun _ => none, fmtIso := fun _ => "" }
      { name := "G", typeField := "_type", tableName := "T", generic := true,
        fields := [], deps := [], indexes := [("primary", { hash := "pk" })] }
      "get" "" true [] [] { hash := "pk" } ([] : Item)
      { ({} : ParamsL) with fback := false } none =
      .ok ([], [], { ({} : ParamsL) with fback := false }) := by
    simp only [collectProperties]
    rfl
  exact (claim_C3 { rcompile := fun _ => none }
      { parseIso := fun _ => none, fmtIso := fun _ => "" }
      { name := "G", typeField := "_type", tableName := "T", generic := true,
        fields := [], deps := [], indexes := [("primary", { hash := "pk" })] }
      "get" ([] : Item) ({} : ParamsL) { hash := "pk" } (by decide) rfl).2
    ([] : Item) ([] : Item) { ({} : ParamsL) with fback := false } rfl hc rfl rfl

theorem applyEditsAt_ne (eds : List EditL) : ∀ (h : Heap) (r r1 : Nat), r ≠ r1 →
    heapGet (applyEditsAt h r1 eds) r = heapGet h r := by
  induction eds with
  | nil => intro h r r1 hne; rfl
  | cons ed rest ih =>
    intro h r r1 hne
    simp only [applyEditsAt]
    rw [ih _ _ _ hne]
    simp only [heapGet, heapSet, List.getD, List.get?_eq_getElem?]
    rw [List.getElem?_set_ne (fun he => hne he.symm)]

/-- C9: the preparation pipeline never mutates the caller's property map:
`checkArgs` clones the top-level map into a fresh reference, the clone starts
as a shallow copy of the caller's entries, and every subsequent top-level
set/delete applied through the clone reference leaves the caller's map
unchanged. -/
theorem claim_C9 (h : Heap) (r : Nat) (hr : r < h.length) (eds : List EditL) :
    (checkArgsClone h r).2 ≠ r ∧
    heapGet (checkArgsClone h r).1 (checkArgsClone h r).2 = heapGet h r ∧
    heapGet (applyEditsAt (checkArgsClone h r).1 (checkArgsClone h r).2 eds) r =
      heapGet h r := by
  refine ⟨by simp [checkArgsClone]; omega, ?_, ?_⟩
  · simp [checkArgsClone, heapGet, List.getD]
  · rw [applyEditsAt_ne eds _ _ _ (by simp [checkArgsClone]; omega)]
    simp [checkArgsClone, heapGet, List.getD, List.getElem?_append, hr]

/-- Concrete instance of `claim_C9`: two mutations through the clone leave the
caller's single-entry map intact. -/
theorem claim_C9_witness :
    heapGet (applyEditsAt (checkArgsClone [[("pk", Value.vstr "1")]] 0).1
        (checkArgsClone [[("pk", Value.vstr "1")]] 0).2
        [.setE "x" (.vnum 2), .delE "pk"]) 0 =
      heapGet [[("pk", Value.vstr "1")]] 0 :=
  (claim_C9 [[("pk", Value.vstr "1")]] 0 (by decide)
    [.setE "x" (.vnum 2), .delE "pk"]).2.2

theorem prepareKeyValue_plain (cx : ExprCtx) (e : ExprState) (key : String)
    (v : Value) (hv : plainVal v = true) :
    ∃ r, prepareKeyValue cx e key v = .ok r := by
  cases v with
  | vstr s =>
    simp only [plainVal, plainStr, Bool.not_eq_true'] at hv
    exact ⟨_, by simp only [prepareKeyValue, hv]; rfl⟩
  | vnull => exact ⟨_, rfl⟩
  | vnum n => exact ⟨_, rfl⟩
  | vbool b => exact ⟨_, rfl⟩
  | vmap mm => exact ⟨_, rfl⟩
  | vlist l => exact ⟨_, rfl⟩

theorem addUpdAdd_ok (cx : ExprCtx) (l : List (String × Value)) :
    l.all (fun kv => plainVal kv.2) = true →
    l.any (fun kv => kv.1 == cx.hash || kv.1 == cx.sort) = false →
    ∀ e, ∃ e1, addUpdAdd cx e l = .ok e1 := by
  induction l with
  | nil => intro _ _ e; exact ⟨e, rfl⟩
  | cons kv rest ih =>
    intro hpl hk e
    obtain ⟨key, value⟩ := kv
    simp only [List.all_cons, Bool.and_eq_true] at hpl
    simp only [List.any_cons, Bool.or_eq_false_iff, beq_eq_false_iff_ne] at hk
    have hanp : assertNotPartition cx key "add" = .ok () := by
      unfold assertNotPartition
      rw [if_neg (by rintro (h | h); exact hk.1.1 h; exact hk.1.2 h)]
    obtain ⟨r, hr⟩ := prepareKeyValue_plain cx e key value hpl.1
    obtain ⟨⟨target, varToks⟩, e2⟩ := r
    simp only [addUpdAdd, hanp, hr]
    exact ih hpl.2 hk.2 _

theorem addUpdAdd_err (cx : ExprCtx) (l : List (String × Value)) :
    l.all (fun kv => plainVal kv.2) = true →
    l.any (fun kv => kv.1 == cx.hash || kv.1 == cx.sort) = true →
    ∀ e, ∃ err, addUpdAdd cx e l = .error err ∧
      err.kind = .argError ∧ err.viaPanic = true := by
  induction l with
  | nil => intro _ hk; simp at hk
  | cons kv rest ih =>
    intro hpl hk e
    obtain ⟨key, value⟩ := kv
    simp only [List.all_cons, Bool.and_eq_true] at hpl
    by_cases ho : key = cx.hash ∨ key = cx.sort
    · have hanp : assertNotPartition cx key "add" =
          .error { kind := .argError, msg := "Cannot " ++ "add" ++ " hash or sort", viaPanic := true } := by
        unfold assertNotPartition
        rw [if_pos ho]
      simp only [addUpdAdd, hanp]
      exact ⟨_, rfl, rfl, rfl⟩
    · have hk2 : rest.any (fun kv => kv.1 == cx.hash || kv.1 == cx.sort) = true := by
        simp only [List.any_cons, Bool.or_eq_true, beq_iff_eq] at hk
        rcases hk with (h | h) | h
        · exact absurd (Or.inl h) ho
        · exact absurd (Or.inr h) ho
        · exact h
      have hanp : assertNotPartition cx key "add" = .ok () := by
        unfold assertNotPartition
        rw [if_neg ho]
      obtain ⟨r, hr⟩ := prepareKeyValue_plain cx e key value hpl.1
      obtain ⟨⟨target, varToks⟩, e2⟩ := r
      simp only [addUpdAdd, hanp, hr]
      exact ih hpl.2 hk2 _

theorem addUpdDel_ok (cx : ExprCtx) (l : List (String × Value)) :
    l.all (fun kv => plainVal kv.2) = true →
    l.any (fun kv => kv.1 == cx.hash || kv.1 == cx.sort) = false →
    ∀ e, ∃ e1, addUpdDel cx e l = .ok e1 := by
  induction l with
  | nil => intro _ _ e; exact ⟨e, rfl⟩
  | cons kv rest ih =>
    intro hpl hk e
    obtain ⟨key, value⟩ := kv
    simp only [List.all_cons, Bool.and_eq_true] at hpl
    simp only [List.any_cons, Bool.or_eq_false_iff, beq_eq_false_iff_ne] at hk
    have hanp : assertNotPartition cx key "delete" = .ok () := by
      unfold assertNotPartition
      rw [if_neg (by rintro (h | h); exact hk.1.1 h; exact hk.1.2 h)]
    obtain ⟨r, hr⟩ := prepareKeyValue_plain cx e key value hpl.1
    obtain ⟨⟨target, varToks⟩, e2⟩ := r
    simp only [addUpdDel, hanp, hr]
    exact ih hpl.2 hk.2 _

theorem addUpdDel_err (cx : ExprCtx) (l : List (String × Value)) :
    l.all (fun kv => plainVal kv.2) = true →
    l.any (fun kv => kv.1 == cx.hash || kv.1 == cx.sort) = true →
    ∀ e, ∃ err, addUpdDel cx e l = .error err ∧
      err.kind = .argError ∧ err.viaPanic = true := by
  induction l with
  | nil => intro _ hk; simp at hk
  | cons kv rest ih =>
    intro hpl hk e
    obtain ⟨key, value⟩ := kv
    simp only [List.all_cons, Bool.and_eq_true] at hpl
    by_cases ho : key = cx.hash ∨ key = cx.sort
    · have hanp : assertNotPartition cx key "delete" =
          .error { kind := .argError, msg := "Cannot " ++ "delete" ++ " hash or sort", viaPanic := true } := by
        unfold assertNotPartition
        rw [if_pos ho]
      simp only [addUpdDel, hanp]
      exact ⟨_, rfl, rfl, rfl⟩
    · have hk2 : rest.any (fun kv => kv.1 == cx.hash || kv.1 == cx.sort) = true := by
        simp only [List.any_cons, Bool.or_eq_true, beq_iff_eq] at hk
        rcases hk with (h | h) | h
        · exact absurd (Or.inl h) ho
        · exact absurd (Or.inr h) ho
        · exact h
      have hanp : assertNotPartition cx key "delete" = .ok () := by
        unfold assertNotPartition
        rw [if_neg ho]
      obtain ⟨r, hr⟩ := prepareKeyValue_plain cx e key value hpl.1
      obtain ⟨⟨target, varToks⟩, e2⟩ := r
      simp only [addUpdDel, hanp, hr]
      exact ih hpl.2 hk2 _

theorem addUpdRemove_ok (cx : ExprCtx) (l : List String) :
    l.any (fun k => k == cx.hash || k == cx.sort) = false →
    ∀ e, ∃ e1, addUpdRemove cx e l = .ok e1 := by
  induction l with
  | nil => intro _ e; exact ⟨e, rfl⟩
  | cons key rest ih =>
    intro hk e
    simp only [List.any_cons, Bool.or_eq_false_iff, beq_eq_false_iff_ne] at hk
    have hanp : assertNotPartition cx key "remove" = .ok () := by
      unfold assertNotPartition
      rw [if_neg (by rintro (h | h); exact hk.1.1 h; exact hk.1.2 h)]
    simp only [addUpdRemove, hanp]
    exact ih hk.2 _

theorem addUpdRemove_err (cx : ExprCtx) (l : List String) :
    l.any (fun k => k == cx.hash || k == cx.sort) = true →
    ∀ e, ∃ err, addUpdRemove cx e l = .error err ∧
      err.kind = .argError ∧ err.viaPanic = true := by
  induction l with
  | nil => intro hk; simp at hk
  | cons key rest ih =>
    intro hk e
    by_cases ho : key = cx.hash ∨ key = cx.sort
    · have hanp : assertNotPartition cx key "remove" =
          .error { kind := .argError, msg := "Cannot " ++ "remove" ++ " hash or sort", viaPanic := true } := by
        unfold assertNotPartition
        rw [if_pos ho]
      simp only [addUpdRemove, hanp]
      exact ⟨_, rfl, rfl, rfl⟩
    · have hk2 : rest.any (fun k => k == cx.hash || k == cx.sort) = true := by
        simp only [List.any_cons, Bool.or_eq_true, beq_iff_eq] at hk
        rcases hk with (h | h) | h
        · exact absurd (Or.inl h) ho
        · exact absurd (Or.inr h) ho
        · exact h
      have hanp : assertNotPartition cx key "remove" = .ok () := by
        unfold assertNotPartition
        rw [if_neg ho]
      simp only [addUpdRemove, hanp]
      exact ih hk2 _

theorem addUpdSet_ok (cx : ExprCtx) (l : List (String × String)) :
    l.all (fun kv => plainStr kv.2) = true →
    l.any (fun kv => kv.1 == cx.hash || kv.1 == cx.sort) = false →
    ∀ e, ∃ e1, addUpdSet cx e l = .ok e1 := by
  induction l with
  | nil => intro _ _ e; exact ⟨e, rfl⟩
  | cons kv rest ih =>
    intro hpl hk e
    obtain ⟨key, value⟩ := kv
    simp only [List.all_cons, Bool.and_eq_true] at hpl
    simp only [List.any_cons, Bool.or_eq_false_iff, beq_eq_false_iff_ne] at hk
    have hanp : assertNotPartition cx key "set" = .ok () := by
      unfold assertNotPartition
      rw [if_neg (by rintro (h | h); exact hk.1.1 h; exact hk.1.2 h)]
    obtain ⟨r, hr⟩ := prepareKeyValue_plain cx e key (.vstr value) hpl.1
    obtain ⟨⟨target, varToks⟩, e2⟩ := r
    simp only [addUpdSet, hanp, hr]
    exact ih hpl.2 hk.2 _

theorem addUpdSet_err (cx : ExprCtx) (l : List (String × String)) :
    l.all (fun kv => plainStr kv.2) = true →
    l.any (fun kv => kv.1 == cx.hash || kv.1 == cx.sort) = true →
    ∀ e, ∃ err, addUpdSet cx e l = .error err ∧
      err.kind = .argError ∧ err.viaPanic = true := by
  induction l with
  | nil => intro _ hk; simp at hk
  | cons kv rest ih =>
    intro hpl hk e
    obtain ⟨key, value⟩ := kv
    simp only [List.all_cons, Bool.and_eq_true] at hpl
    by_cases ho : key = cx.hash ∨ key = cx.sort
    · have hanp : assertNotPartition cx key "set" =
          .error { kind := .argError, msg := "Cannot " ++ "set" ++ " hash or sort", viaPanic := true } := by
        unfold assertNotPartition
        rw [if_pos ho]
      simp only [addUpdSet, hanp]
      exact ⟨_, rfl, rfl, rfl⟩
    · have hk2 : rest.any (fun kv => kv.1 == cx.hash || kv.1 == cx.sort) = true := by
        simp only [List.any_cons, Bool.or_eq_true, beq_iff_eq] at hk
        rcases hk with (h | h) | h
        · exact absurd (Or.inl h) ho
        · exact absurd (Or.inr h) ho
        · exact h
      have hanp : assertNotPartition cx key "set" = .ok () := by
        unfold assertNotPartition
        rw [if_neg ho]
      obtain ⟨r, hr⟩ := prepareKeyValue_plain cx e key (.vstr value) hpl.1
      obtain ⟨⟨target, varToks⟩, e2⟩ := r
      simp only [addUpdSet, hanp, hr]
      exact ih hpl.2 hk2 _

theorem addUpdPush_err (cx : ExprCtx) (l : List (String × Value)) :
    l.any (fun kv => kv.1 == cx.hash || kv.1 == cx.sort) = true →
    ∀ e, ∃ err, addUpdPush cx e l = .error err ∧
      err.kind = .argError ∧ err.viaPanic = true := by
  induction l with
  | nil => intro hk; simp at hk
  | cons kv rest ih =>
    intro hk e
    obtain ⟨key, value⟩ := kv
    by_cases ho : key = cx.hash ∨ key = cx.sort
    · have hanp : assertNotPartition cx key "push" =
          .error { kind := .argError, msg := "Cannot " ++ "push" ++ " hash or sort", viaPanic := true } := by
        unfold assertNotPartition
        rw [if_pos ho]
      simp only [addUpdPush, hanp]
      exact ⟨_, rfl, rfl, rfl⟩
    · have hk2 : rest.any (fun kv => kv.1 == cx.hash || kv.1 == cx.sort) = true := by
        simp only [List.any_cons, Bool.or_eq_true, beq_iff_eq] at hk
        rcases hk with (h | h) | h
        · exact absurd (Or.inl h) ho
        · exact absurd (Or.inr h) ho
        · exact h
      have hanp : assertNotPartition cx key "push" = .ok () := by
        unfold assertNotPartition
        rw [if_neg ho]
      simp only [addUpdPush, hanp]
      exact ih hk2 _

theorem addUpdateConditions_argErr (cx : ExprCtx)
    (hplain : updEntriesPlain cx.params = true)
    (hkey : updNamesKey cx.params cx.hash cx.sort = true) :
    ∀ e, ∃ err, addUpdateConditions cx e = .error err ∧
      err.kind = .argError ∧ err.viaPanic = true := by
  intro e
  simp only [updEntriesPlain, Bool.and_eq_true] at hplain
  obtain ⟨⟨hpa, hpd⟩, hps⟩ := hplain
  by_cases h1 : cx.params.addP.any (fun kv => kv.1 == cx.hash || kv.1 == cx.sort) = true
  · obtain ⟨err, ha, hb, hc⟩ := addUpdAdd_err cx cx.params.addP hpa h1 e
    simp only [addUpdateConditions, ha]
    exact ⟨err, rfl, hb, hc⟩
  · rw [Bool.not_eq_true] at h1
    obtain ⟨e1, ha⟩ := addUpdAdd_ok cx cx.params.addP hpa h1 e
    by_cases h2 : cx.params.deleteP.any (fun kv => kv.1 == cx.hash || kv.1 == cx.sort) = true
    · obtain ⟨err, hd, hb, hc⟩ := addUpdDel_err cx cx.params.deleteP hpd h2 e1
      simp only [addUpdateConditions, ha, hd]
      exact ⟨err, rfl, hb, hc⟩
    · rw [Bool.not_eq_true] at h2
      obtain ⟨e2, hd⟩ := addUpdDel_ok cx cx.params.deleteP hpd h2 e1
      by_cases h3 : cx.params.removeP.any (fun k => k == cx.hash || k == cx.sort) = true
      · obtain ⟨err, hrm, hb, hc⟩ := addUpdRemove_err cx cx.params.removeP h3 e2
        simp only [addUpdateConditions, ha, hd, hrm]
        exact ⟨err, rfl, hb, hc⟩
      · rw [Bool.not_eq_true] at h3
        obtain ⟨e3, hrm⟩ := addUpdRemove_ok cx cx.params.removeP h3 e2
        by_cases h4 : cx.params.setP.any (fun kv => kv.1 == cx.hash || kv.1 == cx.sort) = true
        · obtain ⟨err, hs, hb, hc⟩ := addUpdSet_err cx cx.params.setP hps h4 e3
          simp only [addUpdateConditions, ha, hd, hrm, hs]
          exact ⟨err, rfl, hb, hc⟩
        · rw [Bool.not_eq_true] at h4
          obtain ⟨e4, hs⟩ := addUpdSet_ok cx cx.params.setP hps h4 e3
          have h5 : cx.params.pushP.any (fun kv => kv.1 == cx.hash || kv.1 == cx.sort) = true := by
            simp only [updNamesKey, Bool.or_eq_true] at hkey
            rcases hkey with ((((h | h) | h) | h) | h) <;>
              first
                | exact absurd (h.symm.trans h1) (by decide)
                | exact absurd (h.symm.trans h2) (by decide)
                | exact absurd (h.symm.trans h3) (by decide)
                | exact absurd (h.symm.trans h4) (by decide)
                | exact h
          obtain ⟨err, hp, hb, hc⟩ := addUpdPush_err cx cx.params.pushP h5 e4
          simp only [addUpdateConditions, ha, hd, hrm, hs]
          exact ⟨err, hp, hb, hc⟩

/-- C7: on an update, any params-provided Add/Delete/Remove/Set/Push entry
naming the active index hash or sort attribute makes the update-clause
builder fail with an argument error (a Go panic carrying ArgError), and the
expression preparation fails before any command envelope is produced.
`updEntriesPlain` scopes the parameter values to expansion-free ones, ruling
out earlier failures of the `${...}`/`@{...}` expansion. -/
theorem claim_C7 (cx : ExprCtx) (e : ExprState) (properties : Item)
    (hplain : updEntriesPlain cx.params = true)
    (hkey : updNamesKey cx.params cx.hash cx.sort = true) :
    (∃ err, addUpdateConditions cx e = .error err ∧
      err.kind = .argError ∧ err.viaPanic = true) ∧
    (cx.op = "update" →
      (∃ err, addConditions cx e = .error err ∧
        err.kind = .argError ∧ err.viaPanic = true) ∧
      (∃ err, prepare cx e properties = .error err ∧
        err.kind = .argError ∧ err.viaPanic = true)) := by
  have H := addUpdateConditions_argErr cx hplain hkey
  refine ⟨H e, fun hop => ?_⟩
  have hcond : ∃ err, addConditions cx e = .error err ∧
      err.kind = .argError ∧ err.viaPanic = true := by
    simp only [addConditions]
    rw [hop]
    rw [if_pos rfl]
    obtain ⟨err, h1, h2, h3⟩ := H _
    rw [h1]
    exact ⟨err, rfl, h2, h3⟩
  refine ⟨hcond, ?_⟩
  obtain ⟨err, h1, h2, h3⟩ := hcond
  simp only [prepare]
  rw [hop]
  rw [if_neg (by decide)]
  rw [if_pos (by right; right; left; rfl)]
  rw [h1]
  exact ⟨err, rfl, h2, h3⟩

/-- Concrete instance of `claim_C7`: a params Set entry naming the hash
attribute makes the update-clause builder fail with an argument error. -/
theorem claim_C7_witness :
    ∃ err, addUpdateConditions
        { model := { name := "User", typeField := "_type", tableName := "T",
                     fields := [], deps := [],
                     indexes := [("primary", { hash := "pk", sort := "sk" })] },
          op := "update", params := { setP := [("pk", "x")] },
          index := { hash := "pk", sort := "sk" },
          hash := "pk", sort := "sk", canPut := false, executeFlag := true,
          tableName := "T" } ({} : ExprState) = .error err ∧
      err.kind = .argError ∧ err.viaPanic = true :=
  (claim_C7
    { model := { name := "User", typeField := "_type", tableName := "T",
                 fields := [], deps := [],
                 indexes := [("primary", { hash := "pk", sort := "sk" })] },
      op := "update", params := { setP := [("pk", "x")] },
      index := { hash := "pk", sort := "sk" },
      hash := "pk", sort := "sk", canPut := false, executeFlag := true,
      tableName := "T" } ({} : ExprState) ([] : Item)
    (by decide) (by decide)).1

theorem lookupStr_setAssoc {α : Type} (d : List (String × α)) (n k : String) (v : α) :
    lookupStr (setAssoc d n v) k = if n = k then some v else lookupStr d k := by
  induction d with
  | nil =>
    simp only [setAssoc, lookupStr]
  | cons p rest ih =>
    obtain ⟨k2, v2⟩ := p
    simp only [setAssoc]
    by_cases h : k2 = n
    · rw [if_pos h]
      subst h
      simp only [lookupStr]
      by_cases h2 : k2 = k
      · rw [if_pos h2, if_pos h2]
      · rw [if_neg h2, if_neg h2, if_neg h2]
    · rw [if_neg h]
      simp only [lookupStr]
      by_cases h2 : k2 = k
      · rw [if_pos h2, if_pos h2, if_neg (h2 ▸ fun he => h he.symm)]
      · rw [if_neg h2, if_neg h2, ih]

theorem setAssoc_setAssoc {α : Type} (d : List (String × α)) (n : String) (v w : α) :
    setAssoc (setAssoc d n v) n w = setAssoc d n w := by
  induction d with
  | nil => simp [setAssoc]
  | cons p rest ih =>
    obtain ⟨k2, v2⟩ := p
    simp only [setAssoc]
    by_cases h : k2 = n
    · subst h
      simp [setAssoc]
    · rw [if_neg h]
      simp only [setAssoc, if_neg h, ih]

theorem itemGet?_eq_lookupStr (m : Item) (k : String) :
    itemGet? m k = lookupStr m k := by
  induction m with
  | nil => rfl
  | cons p rest ih =>
    obtain ⟨k2, v⟩ := p
    simp only [itemGet?, lookupStr]
    by_cases h : k2 = k
    · rw [if_pos h, if_pos h]
    · rw [if_neg h, if_neg h, ih]

theorem lookupStr_isSome_mem {α : Type} (l : List (String × α)) (k : String) (v : α)
    (h : lookupStr l k = some v) : (k, v) ∈ l := by
  induction l with
  | nil => simp [lookupStr] at h
  | cons p rest ih =>
    obtain ⟨k2, v2⟩ := p
    simp only [lookupStr] at h
    by_cases he : k2 = k
    · rw [if_pos he] at h
      subst he
      cases h
      exact List.mem_cons_self _ _
    · rw [if_neg he] at h
      exact List.mem_cons_of_mem _ (ih h)

theorem lookupStr_none_of_not_mem {α : Type} (l : List (String × α)) (k : String)
    (h : k ∉ l.map Prod.fst) : lookupStr l k = none := by
  induction l with
  | nil => rfl
  | cons p rest ih =>
    obtain ⟨k2, v2⟩ := p
    simp only [List.map_cons, List.mem_cons] at h
    push_neg at h
    simp only [lookupStr]
    rw [if_neg (fun he => h.1 he.symm)]
    exact ih h.2

theorem mem_lookupStr_of_nodup {α : Type} (l : List (String × α)) (k : String) (v : α)
    (hnd : (l.map Prod.fst).Nodup) (h : (k, v) ∈ l) : lookupStr l k = some v := by
  induction l with
  | nil => simp at h
  | cons p rest ih =>
    obtain ⟨k2, v2⟩ := p
    simp only [List.map_cons, List.nodup_cons] at hnd
    simp only [List.mem_cons] at h
    rcases h with h | h
    · cases h
      simp [lookupStr]
    · simp only [lookupStr]
      have hk2 : k2 ≠ k := by
        intro he
        subst he
        exact hnd.1 (List.mem_map_of_mem Prod.fst h)
      rw [if_neg hk2]
      exact ih hnd.2 h

theorem validateProperty_eq (rx : RegexLib) (field : PField) (value : Value)
    (d : List (String × String)) :
    validateProperty rx field value d =
      if checkFailB rx field value = true then
        setAssoc d field.core.name
          ("Bad value \"" ++ showValue value ++ "\" for \"" ++ field.core.name ++ "\"")
      else d := by
  simp only [validateProperty, checkFailB, specRegexFails]
  cases he : field.core.fdef.enum with
  | none =>
    simp only [he]
    by_cases h1 : field.core.fdef.validate ≠ ""
    · simp only [if_pos h1]
      by_cases h2 : field.core.fdef.validate.data.headD ' ' = '/'
      · simp only [if_pos h2]
        by_cases h3 : lastIndexOfChar '/' field.core.fdef.validate.data > 0
        · simp only [if_pos h3]
          split
          · rename_i matcher heq
            split <;> rename_i hm <;> simp_all [setAssoc_setAssoc]
          · rename_i heq
            simp_all [setAssoc_setAssoc]
        · simp only [if_neg h3]
          simp_all [setAssoc_setAssoc]
      · simp only [if_neg h2]
        split
        · rename_i matcher heq
          split <;> rename_i hm <;> simp_all [setAssoc_setAssoc]
        · rename_i heq
          simp_all [setAssoc_setAssoc]
    · simp_all [setAssoc_setAssoc]
  | some es =>
    simp only [he]
    by_cases hcont : containsStr es (showValue value) = true
    · rw [if_neg (by simp [hcont])]
      by_cases h1 : field.core.fdef.validate ≠ ""
      · simp only [if_pos h1]
        by_cases h2 : field.core.fdef.validate.data.headD ' ' = '/'
        · simp only [if_pos h2]
          by_cases h3 : lastIndexOfChar '/' field.core.fdef.validate.data > 0
          · simp only [if_pos h3]
            split
            · rename_i matcher heq
              split <;> rename_i hm <;> simp_all [setAssoc_setAssoc]
            · rename_i heq
              simp_all [setAssoc_setAssoc]
          · simp only [if_neg h3]
            simp_all [setAssoc_setAssoc]
        · simp only [if_neg h2]
          split
          · rename_i matcher heq
            split <;> rename_i hm <;> simp_all [setAssoc_setAssoc]
          · rename_i heq
            simp_all [setAssoc_setAssoc]
      · simp_all [setAssoc_setAssoc]
    · simp only [Bool.not_eq_true] at hcont
      rw [if_pos (by simp [hcont])]
      by_cases h1 : field.core.fdef.validate ≠ ""
      · simp only [if_pos h1]
        by_cases h2 : field.core.fdef.validate.data.headD ' ' = '/'
        · simp only [if_pos h2]
          by_cases h3 : lastIndexOfChar '/' field.core.fdef.validate.data > 0
          · simp only [if_pos h3]
            split
            · rename_i matcher heq
              split <;> rename_i hm <;> simp_all [setAssoc_setAssoc]
            · rename_i heq
              simp_all [setAssoc_setAssoc]
          · simp only [if_neg h3]
            simp_all [setAssoc_setAssoc]
        · simp only [if_neg h2]
          split
          · rename_i matcher heq
            split <;> rename_i hm <;> simp_all [setAssoc_setAssoc]
          · rename_i heq
            simp_all [setAssoc_setAssoc]
      · simp_all [setAssoc_setAssoc]

theorem any_key_not_mem {β : Type} (l : List (String × β)) (k : String)
    (g : String → β → Bool) (h : k ∉ l.map Prod.fst) :
    l.any (fun p => p.1 == k && g p.1 p.2) = false := by
  induction l with
  | nil => rfl
  | cons p rest ih =>
    obtain ⟨n, b⟩ := p
    simp only [List.map_cons, List.mem_cons] at h
    push_neg at h
    simp only [List.any_cons, Bool.or_eq_false_iff]
    constructor
    · have hne : n ≠ k := fun he => h.1 he.symm
      simp [hne]
    · exact ih h.2

theorem any_key_lookup {β : Type} (l : List (String × β)) (k : String)
    (g : String → β → Bool) (hnd : (l.map Prod.fst).Nodup) :
    l.any (fun p => p.1 == k && g p.1 p.2) =
      (match lookupStr l k with | some v => g k v | none => false) := by
  induction l with
  | nil => rfl
  | cons p rest ih =>
    obtain ⟨n, b⟩ := p
    simp only [List.map_cons, List.nodup_cons] at hnd
    simp only [List.any_cons, lookupStr]
    by_cases hnk : n = k
    · subst hnk
      rw [if_pos rfl]
      have hrest : rest.any (fun p => p.1 == n && g p.1 p.2) = false :=
        any_key_not_mem rest n g hnd.1
      simp [hrest]
    · rw [if_neg hnk]
      have : (n == k) = false := by simp [hnk]
      simp only [this, Bool.false_and, Bool.false_or]
      exact ih hnd.2

theorem any_name_eq (flds : List (String × PField))
    (halign : ∀ p ∈ flds, (p.2 : PField).core.name = p.1) (f : PField → Bool) (k : String) :
    flds.any (fun p => p.2.core.name == k && f p.2) =
      flds.any (fun p => p.1 == k && f p.2) := by
  induction flds with
  | nil => rfl
  | cons q rest ih =>
    simp only [List.any_cons]
    rw [halign q (List.mem_cons_self q rest),
        ih (fun p hp => halign p (List.mem_cons_of_mem q hp))]

theorem validatePropsLoop_mem (rx : RegexLib) (fields : List (String × PField))
    (halign : ∀ p ∈ fields, (p.2 : PField).core.name = p.1)
    (props : List (String × Value)) :
    ∀ acc k, (lookupStr (validatePropsLoop rx fields acc props) k).isSome = true ↔
      ((lookupStr acc k).isSome = true ∨
        props.any (fun nv => nv.1 == k &&
          (match lookupStr fields nv.1 with
           | none => false
           | some field => !field.hasBlock && checkFailB rx field nv.2)) = true) := by
  induction props with
  | nil =>
    intro acc k
    simp [validatePropsLoop]
  | cons nv rest ih =>
    intro acc k
    obtain ⟨n, v⟩ := nv
    simp only [validatePropsLoop]
    cases hf : lookupStr fields n with
    | none =>
      dsimp only
      rw [ih]
      simp [List.any_cons, hf]
    | some field =>
      dsimp only
      by_cases hb : field.hasBlock = true
      · rw [if_pos hb, ih]
        simp [List.any_cons, hf, hb]
      · rw [Bool.not_eq_true] at hb
        rw [if_neg (by simp [hb])]
        by_cases hg : field.core.fdef.validate ≠ "" ∨ field.core.fdef.enum ≠ none
        · rw [if_pos hg, ih, validateProperty_eq]
          have hname : field.core.name = n :=
            halign (n, field) (lookupStr_isSome_mem fields n field hf)
          cases hck : checkFailB rx field v with
          | false => simp [hck, List.any_cons, hf, hb]
          | true =>
            rw [if_pos rfl]
            rw [lookupStr_setAssoc, hname]
            by_cases hnk : n = k
            · subst hnk
              simp [List.any_cons, hf, hb, hck]
            · rw [if_neg hnk]
              have hkn : (n == k) = false := by simp [hnk]
              simp [List.any_cons, hf, hb, hck, hkn]
        · rw [if_neg hg, ih]
          push_neg at hg
          have hcf : checkFailB rx field v = false := by
            simp [checkFailB, hg.1, hg.2]
          simp [List.any_cons, hf, hcf]

theorem validateRequired_mem (op : String) (properties : Item)
    (flds : List (String × PField)) :
    ∀ acc k, (lookupStr (validateRequired op properties acc flds) k).isSome = true ↔
      ((lookupStr acc k).isSome = true ∨
        flds.any (fun p => p.2.core.name == k && requiredFailB op properties p.2) = true) := by
  induction flds with
  | nil =>
    intro acc k
    simp [validateRequired]
  | cons p rest ih =>
    intro acc k
    obtain ⟨pn, field⟩ := p
    simp only [validateRequired]
    by_cases hg : field.core.required = true ∧ ¬ field.hasBlock = true
    · rw [if_pos hg]
      cases hp : itemGet? properties field.core.name with
      | none =>
        dsimp only
        by_cases hput : op = "put"
        · rw [if_pos hput, ih, lookupStr_setAssoc]
          have hrf : requiredFailB op properties field = true := by
            simp [requiredFailB, hg.1, (by cases hbk : field.hasBlock <;> simp_all : field.hasBlock = false), hp, hput]
          by_cases hnk : field.core.name = k
          · simp [hnk, List.any_cons, hrf]
          · rw [if_neg hnk]
            simp [List.any_cons, hrf, hnk]
        · rw [if_neg hput, ih]
          have hrf : requiredFailB op properties field = false := by
            simp [requiredFailB, hp, hput]
          simp [List.any_cons, hrf]
      | some v =>
        dsimp only
        by_cases hnil : v.isNil = true ∧ (op = "put" ∨ op = "update")
        · rw [if_pos hnil, ih, lookupStr_setAssoc]
          have hrf : requiredFailB op properties field = true := by
            rcases hnil.2 with h | h <;>
              simp [requiredFailB, hg.1, (by cases hbk : field.hasBlock <;> simp_all : field.hasBlock = false), hp, hnil.1, h]
          by_cases hnk : field.core.name = k
          · simp [hnk, List.any_cons, hrf]
          · rw [if_neg hnk]
            simp [List.any_cons, hrf, hnk]
        · rw [if_neg hnil, ih]
          have hrf : requiredFailB op properties field = false := by
            simp only [not_and_or, Bool.not_eq_true] at hnil
            rcases hnil with h | h
            · simp [requiredFailB, hp, h]
            · push_neg at h
              simp [requiredFailB, hp, h.1, h.2]
          simp [List.any_cons, hrf]
    · rw [if_neg hg]
      rw [ih]
      have hrf : requiredFailB op properties field = false := by
        have : (field.core.required && !field.hasBlock) = false := by
          cases hr : field.core.required <;> cases hbk : field.hasBlock <;> simp_all
        simp [requiredFailB, this]
      simp [List.any_cons, hrf]

theorem offends_iff (rx : RegexLib) (op : String) (fields : List (String × PField))
    (properties : Item)
    (halign : ∀ p ∈ fields, (p.2 : PField).core.name = p.1)
    (hndF : (fields.map Prod.fst).Nodup)
    (hndP : (properties.map Prod.fst).Nodup) (k : String) :
    (lookupStr (validateRequired op properties
        (validatePropsLoop rx fields [] properties) fields) k).isSome = true ↔
      specOffends rx op fields properties k = true := by
  rw [validateRequired_mem, validatePropsLoop_mem rx fields halign]
  have h0 : ((lookupStr ([] : List (String × String)) k).isSome = true) ↔ False := by
    simp [lookupStr]
  rw [h0, false_or]
  rw [any_name_eq fields halign (requiredFailB op properties) k]
  rw [any_key_lookup fields k (fun _ f => requiredFailB op properties f) hndF]
  rw [any_key_lookup properties k
    (fun n v => match lookupStr fields n with
      | none => false
      | some field => !field.hasBlock && checkFailB rx field v) hndP]
  cases hfk : lookupStr fields k with
  | none =>
    cases hpk : lookupStr properties k with
    | none => simp [specOffends, hfk, hpk]
    | some v => simp [specOffends, hfk, hpk]
  | some field =>
    have hname : field.core.name = k :=
      halign (k, field) (lookupStr_isSome_mem fields k field hfk)
    cases hblk : field.hasBlock with
    | true =>
      have hrf : requiredFailB op properties field = false := by
        simp [requiredFailB, hblk]
      cases hpk : lookupStr properties k with
      | none => simp [specOffends, hfk, hpk, hblk, hrf]
      | some v => simp [specOffends, hfk, hpk, hblk, hrf]
    | false =>
      cases hpk : lookupStr properties k with
      | none =>
        simp only [specOffends, hfk, hpk, hblk, requiredFailB, hname,
          itemGet?_eq_lookupStr]
        cases hreq : field.core.required <;> simp [hreq, hpk]
      | some v =>
        simp only [specOffends, hfk, hpk, hblk, requiredFailB, hname,
          itemGet?_eq_lookupStr]
        by_cases hval : field.core.fdef.validate = ""
        · cases hen : field.core.fdef.enum with
          | none =>
            cases hreq : field.core.required <;> simp [checkFailB, hval, hen, hreq, hpk]
          | some es =>
            cases hreq : field.core.required <;>
              cases hcs : containsStr es (showValue v) <;>
                simp [checkFailB, hval, hen, hreq, hcs, hpk]
        · cases hen : field.core.fdef.enum with
          | none =>
            cases hreq : field.core.required <;>
              cases hsr : specRegexFails rx field.core.fdef.validate v <;>
                simp [checkFailB, hval, hen, hreq, hsr, hpk]
          | some es =>
            cases hreq : field.core.required <;>
              cases hsr : specRegexFails rx field.core.fdef.validate v <;>
                cases hcs : containsStr es (showValue v) <;>
                  simp [checkFailB, hval, hen, hreq, hsr, hcs, hpk]

/-- C6: on a put or update, validation collects every failing field
(required missing on create, explicit null on update, regex mismatch in
either form, case-sensitive enum mismatch) into one validation map and
surfaces them as a single `Validation` error whose context names exactly the
offending fields; it succeeds iff no field offends.  `specOffends` is
modelled from the spec wording; the hypotheses state that the prepared field
map is keyed by field name without duplicates (as `prepModel` builds it) and
that the property map has no duplicate keys. -/
theorem claim_C6 (rx : RegexLib) (m : ModelL) (op : String)
    (fields : List (String × PField)) (properties : Item)
    (hop : op = "put" ∨ op = "update")
    (halign : ∀ p ∈ fields, (p.2 : PField).core.name = p.1)
    (hndF : (fields.map Prod.fst).Nodup)
    (hndP : (properties.map Prod.fst).Nodup) :
    (validateProperties rx m op fields properties = .ok () ↔
      ∀ k, specOffends rx op fields properties k = false) ∧
    (∀ err, validateProperties rx m op fields properties = .error err →
      err.kind = .validation ∧
      ∀ k, ((lookupStr err.validationCtx k).isSome = true ↔
        specOffends rx op fields properties k = true)) := by
  have KT := fun k => offends_iff rx op fields properties halign hndF hndP k
  have hcond : ¬ (op ≠ "put" ∧ op ≠ "update") := by
    rcases hop with h | h <;> simp [h]
  simp only [validateProperties]
  rw [if_neg hcond]
  cases hv : validateRequired op properties (validatePropsLoop rx fields [] properties)
      fields with
  | nil =>
    rw [if_neg (by simp)]
    constructor
    · constructor
      · intro _ k
        by_contra hsp
        rw [Bool.not_eq_false] at hsp
        have h2 := (KT k).mpr hsp
        rw [hv] at h2
        simp [lookupStr] at h2
      · intro _
        rfl
    · intro err herr
      simp at herr
  | cons p rest =>
    rw [if_pos (by simp)]
    constructor
    · constructor
      · intro hok
        simp at hok
      · intro hno
        obtain ⟨k0, m0⟩ := p
        have hlook : (lookupStr (validateRequired op properties
            (validatePropsLoop rx fields [] properties) fields) k0).isSome = true := by
          rw [hv]
          simp [lookupStr]
        have hsp := (KT k0).mp hlook
        rw [hno k0] at hsp
        cases hsp
    · intro err herr
      cases herr
      constructor
      · rfl
      · intro k
        have h2 := KT k
        rw [hv] at h2
        exact h2

/-- Concrete instance of `claim_C6`: a put with an enum mismatch and a
missing required field; the single validation error covers both. -/
theorem claim_C6_witness :
    (validateProperties { rcompile := fun _ => none }
        { name := "User", typeField := "_type", tableName := "T",
          fields := [], deps := [], indexes := [] } "put"
        [("name", .mk { name := "name", attPath := ["name"], fdef := { enum := some ["a", "b"] } } [] [] false),
         ("race", .mk { name := "race", attPath := ["race"], fdef := {}, required := true } [] [] false)]
        [("name", Value.vstr "c")] = .ok () ↔
      ∀ k, specOffends { rcompile := fun _ => none } "put"
        [("name", .mk { name := "name", attPath := ["name"], fdef := { enum := some ["a", "b"] } } [] [] false),
         ("race", .mk { name := "race", attPath := ["race"], fdef := {}, required := true } [] [] false)]
        [("name", Value.vstr "c")] k = false) ∧
    (∀ err, validateProperties { rcompile := fun _ => none }
        { name := "User", typeField := "_type", tableName := "T",
          fields := [], deps := [], indexes := [] } "put"
        [("name", .mk { name := "name", attPath := ["name"], fdef := { enum := some ["a", "b"] } } [] [] false),
         ("race", .mk { name := "race", attPath := ["race"], fdef := {}, required := true } [] [] false)]
        [("name", Value.vstr "c")] = .error err →
      err.kind = .validation ∧
      ∀ k, ((lookupStr err.validationCtx k).isSome = true ↔
        specOffends { rcompile := fun _ => none } "put"
          [("name", .mk { name := "name", attPath := ["name"], fdef := { enum := some ["a", "b"] } } [] [] false),
           ("race", .mk { name := "race", attPath := ["race"], fdef := {}, required := true } [] [] false)]
          [("name", Value.vstr "c")] k = true)) :=
  claim_C6 { rcompile := fun _ => none }
    { name := "User", typeField := "_type", tableName := "T",
      fields := [], deps := [], indexes := [] } "put"
    [("name", .mk { name := "name", attPath := ["name"], fdef := { enum := some ["a", "b"] } } [] [] false),
     ("race", .mk { name := "race", attPath := ["race"], fdef := {}, required := true } [] [] false)]
    [("name", Value.vstr "c")]
    (Or.inl rfl) (by decide) (by decide) (by decide)

theorem lookupStr_nil {α : Type} (k : String) :
    lookupStr ([] : List (String × α)) k = none := rfl

theorem lookupStr_cons {α : Type} (k2 : String) (v : α) (rest : List (String × α)) (k : String) :
    lookupStr ((k2, v) :: rest) k = if k2 = k then some v else lookupStr rest k := rfl

theorem itemGet?_nil (k : String) : itemGet? [] k = none := rfl

theorem itemGet?_cons (k2 : String) (v : Value) (rest : Item) (k : String) :
    itemGet? ((k2, v) :: rest) k = if k2 = k then some v else itemGet? rest k := rfl

theorem itemSet_nil (k : String) (v : Value) : itemSet [] k v = [(k, v)] := rfl

theorem itemSet_cons (k2 : String) (v2 : Value) (rest : Item) (k : String) (v : Value) :
    itemSet ((k2, v2) :: rest) k v =
      if k2 = k then (k, v) :: rest else (k2, v2) :: itemSet rest k v := rfl

theorem containsStr_nil (v : String) : containsStr [] v = false := rfl

theorem containsStr_cons (x : String) (rest : List String) (v : String) :
    containsStr (x :: rest) v = if x = v then true else containsStr rest v := rfl

set_option maxHeartbeats 4000000 in
theorem uniquePut_cmd (rx : RegexLib) (tl : TimeLib) (m : ModelL) (primary : IndexDefL)
    (nowV : Value) (pk : String) (txn : TxnL)
    (hsort : primary.sort ≠ "")
    (hHS : primary.hash ≠ primary.sort)
    (hHT : primary.hash ≠ m.typeField)
    (hST : primary.sort ≠ m.typeField)
    (hts : m.timestamps = .tsOff)
    (hctx : m.tableContext = [])
    (hproj : primary.project = none)
    (hprim : lookupStr m.indexes "primary" = some primary)
    (hmet : m.metricsOn = false)
    (hcli : m.hasClient = true) :
    uniqueCreateTxn rx tl (mkUniqueModel m primary) nowV
        [(primary.hash, .vstr pk), (primary.sort, .vstr "_unique#")] txn =
      .ok { txn with items := txn.items ++ [("Put",
        { tableName := m.tableName
          conditionExpr := some [Tok.lit "(", Tok.lit "attribute_not_exists(",
            Tok.nref 0, Tok.lit ")", Tok.lit ")", Tok.lit " and ", Tok.lit "(",
            Tok.lit "attribute_not_exists(", Tok.nref 1, Tok.lit ")", Tok.lit ")"]
          eans := some [("#_0", primary.hash), ("#_1", primary.sort)]
          itemI := some [(primary.hash, .vstr pk), (primary.sort, .vstr "_unique#"),
            (m.typeField, .vstr "_Unique")]
          returnValues := some "NONE" })] } := by
  simp only [uniqueCreateTxn, putItemTxn, mkUniqueModel, hts]
  simp only [prepareProperties, selectIndex, selectIndexName, needsFallback]
  simp only [collectProperties]
  simp [addContext, addContextFields, setDefaults, setDefaultsFields, runTemplates,
    convertNulls, convertNullsGo, validateProperties, validatePropsLoop, validateRequired,
    selectProperties, selectPropsLoop, getProjection, addProjectedProps, transformProperties,
    transformWriteAttribute, transformWriteDate, getHashValue, keysOnlyOp,
    itemHas, goGet, projOmits,
    newExpression, initExpr, selectIndex, selectIndexName, prepare, addConditions, existsCond, addName,
    addWhereFilters, addProperties, addPropsGo, addOne,
    checkMapped, prepareMapped, command, computeReturnValues, joinParen, joinToks,
    addUpdateConditions, addUpdAdd, addUpdDel, addUpdRemove, addUpdSet, addUpdPush,
    PField.hasBlock, PField.core, PField.att0, PField.blockFields, PField.blockDeps,
    Value.isNil, Value.noDedup, TsPolicy.creates, TsPolicy.updates,
    getPartFlag, filterDisabled, synthField, addValueExp, addValue,
    lookupStr_nil, lookupStr_cons, itemGet?_nil, itemGet?_cons,
    itemSet_nil, itemSet_cons, containsStr_nil, containsStr_cons,
    hsort, hHS, hHT, hST, hctx, hproj, hprim, hmet, hcli,
    Ne.symm hHS, Ne.symm hHT, Ne.symm hST]
  refine ⟨⟨rfl, rfl⟩, rfl, rfl, rfl⟩


theorem createUniqueSentinels_spec (rx : RegexLib) (tl : TimeLib) (m : ModelL)
    (primary : IndexDefL) (nowV : Value) (nm : String)
    (hsort : primary.sort ≠ "")
    (hHS : primary.hash ≠ primary.sort)
    (hHT : primary.hash ≠ m.typeField)
    (hST : primary.sort ≠ m.typeField)
    (hts : m.timestamps = .tsOff)
    (hctx : m.tableContext = [])
    (hproj : primary.project = none)
    (hprim : lookupStr m.indexes "primary" = some primary)
    (hmet : m.metricsOn = false)
    (hcli : m.hasClient = true) :
    ∀ (flds : List PField) (prepared : Item) (txn : TxnL),
      createUniqueSentinels rx tl (mkUniqueModel m primary) nm primary nowV prepared txn flds =
        .ok { txn with
          items := txn.items ++ sentinelPuts m.tableName m.typeField primary nm prepared flds } := by
  intro flds
  induction flds with
  | nil =>
    intro prepared txn
    simp [createUniqueSentinels, sentinelPuts]
  | cons field rest ih =>
    intro prepared txn
    simp only [createUniqueSentinels, sentinelPuts]
    cases hv : itemGet? prepared field.core.name with
    | none =>
      dsimp only
      exact ih prepared txn
    | some v =>
      dsimp only
      by_cases hnil : v.isNil = true
      · rw [if_neg (by simp [hnil]), if_neg (by simp [hnil])]
        exact ih prepared txn
      · rw [if_pos (by simp [hnil]), if_pos (by simp [hnil])]
        rw [uniquePut_cmd rx tl m primary nowV _ txn hsort hHS hHT hST hts hctx hproj
          hprim hmet hcli]
        dsimp only
        rw [ih prepared]
        simp [sentinelCmd]

theorem putItemTxn_items (rx : RegexLib) (tl : TimeLib) (m : ModelL) (nowV : Value)
    (props : Item) (params : ParamsL) (txn : TxnL) (a : Item) (b : ParamsL) (txn2 : TxnL)
    (h : putItemTxn rx tl m nowV props params txn = .ok (a, b, txn2)) :
    ∃ cmd, txn2 = { txn with items := txn.items ++ [("Put", cmd)] } := by
  simp only [putItemTxn] at h
  split at h
  · exact absurd h (by simp)
  · split at h
    · exact absurd h (by simp)
    · split at h
      · exact absurd h (by simp)
      · rename_i cmd heq
        simp only [Except.ok.injEq, Prod.mk.injEq] at h
        exact ⟨cmd, h.2.2.symm⟩

/-- C1: with the caller supplying no transaction, `createUnique` prepares
the put, enqueues one sentinel put per unique non-primary-key field whose
prepared value is non-nil — keyed `_unique#<Model>#<attr>#<value>` /
`_unique#` and guarded by `attribute_not_exists` conditions on both primary
key attributes — then enqueues the main put and commits; a conditional
failure on commit becomes a `Unique` error naming every unique field.  The
hypotheses pin the schema shape (sorted primary index, distinct key/type
attribute names, no timestamps, no table context, unprojected primary) and
that preparation and the main put succeed. -/
theorem claim_C1 (rx : RegexLib) (tl : TimeLib) (m : ModelL) (primary : IndexDefL)
    (nowV : Value) (properties : Item) (params0 : ParamsL)
    (prepared : Item) (params1 : ParamsL)
    (hsort : primary.sort ≠ "")
    (hHS : primary.hash ≠ primary.sort)
    (hHT : primary.hash ≠ m.typeField)
    (hST : primary.sort ≠ m.typeField)
    (hts : m.timestamps = .tsOff)
    (hctx : m.tableContext = [])
    (hproj : primary.project = none)
    (hprim : lookupStr m.indexes "primary" = some primary)
    (hmet : m.metricsOn = false)
    (hcli : m.hasClient = true)
    (hprep : prepareProperties rx tl m "put" properties
      { params0 with txnOn := true, txnHasTs := true } = .ok (prepared, params1)) :
    (∀ (flds : List PField) (prep2 : Item) (txn : TxnL),
      createUniqueSentinels rx tl (mkUniqueModel m primary) m.name primary nowV prep2 txn flds =
        .ok { txn with
          items := txn.items ++
            sentinelPuts m.tableName m.typeField primary m.name prep2 flds }) ∧
    (∀ (it : Item) (p2 : ParamsL) (txn2 : TxnL),
      putItemTxn rx tl m nowV prepared { params1 with prepared := true }
        { hasTimestamp := true
          items := sentinelPuts m.tableName m.typeField primary m.name prepared
            (uniqueFieldsOf m primary) } = .ok (it, p2, txn2) →
      (∃ cmd, txn2.items = sentinelPuts m.tableName m.typeField primary m.name prepared
          (uniqueFieldsOf m primary) ++ [("Put", cmd)]) ∧
      createUnique rx tl m nowV properties params0 none none =
        .ok { item := prepared, txn := txn2, committedHere := true } ∧
      (∀ msg, isConditionalFailed msg = true →
        createUnique rx tl m nowV properties params0 none (some msg) = .error
          { kind := .uniqueE
            msg := "Cannot create unique attributes \"" ++
              joinStrs ", " ((uniqueFieldsOf m primary).map (fun f => f.core.name)) ++
              "\" for \"" ++ m.name ++
              "\". An item of the same name already exists." })) := by
  have SL := createUniqueSentinels_spec rx tl m primary nowV m.name hsort hHS hHT hST hts
    hctx hproj hprim hmet hcli
  refine ⟨SL, ?_⟩
  intro it p2 txn2 hmain
  have hcu : ∀ ce, createUnique rx tl m nowV properties params0 none ce =
      (match ce with
       | some msg =>
         if isConditionalFailed msg then
           .error { kind := .uniqueE
                    msg := "Cannot create unique attributes \"" ++
                      joinStrs ", " ((uniqueFieldsOf m primary).map (fun f => f.core.name)) ++
                      "\" for \"" ++ m.name ++
                      "\". An item of the same name already exists." }
         else .error { kind := .runtimeE, msg := msg }
       | none => .ok { item := prepared, txn := txn2, committedHere := true }) := by
    intro ce
    simp only [createUnique, hts, TsPolicy.creates, TsPolicy.updates, Bool.false_eq_true,
      if_false, hprep, hprim, SL, Option.getD, Option.isNone_none, List.nil_append]
    simp only [hmain]
    simp
  refine ⟨?_, hcu none, fun msg h => by rw [hcu (some msg)]; simp only [if_pos h]⟩
  obtain ⟨cmd, hc⟩ := putItemTxn_items rx tl m nowV prepared { params1 with prepared := true }
    _ it p2 txn2 hmain
  exact ⟨cmd, by rw [hc]⟩

end OneTable
